import Mathlib

/-!
# Record / replay of Pauli frame programs

A shallow embedding of `src/chp_sim_record.cc`:

* `PauliFrameSimulation.recorded_from_tableau_sim` drives an exact stabilizer
  simulator once over an operation stream and groups what it saw into cycles;
* `PauliFrameSimulation.sample` replays such a program on one Pauli frame;
* `print` and `PauliFrameSimulation.str` write the text form of a program.

The bulk engine `SimBulkPauliFrames` is only declared in `src/sim_frame.h`; its
operations are modelled from the specification and marked as such.

The exact simulator (`ChpSim`) and the Pauli string algebra are not part of the
translated sources.  The simulator is an arbitrary implementation of the
interface `ChpSim`, the two frame transformations the replay calls are the
fields of `PauliOps`, and the bit accessors of a frame are modelled below.

`size_t` is taken to be 64 bits wide; arithmetic on it is written with an
explicit `% SIZE_MOD`.
-/

namespace Stim

/-! ## Data model -/

/-- Number of values of a `size_t`. -/
def SIZE_MOD : Nat := 2 ^ 64

/-- Largest value of a `size_t`. -/
def SIZE_MAX : Nat := 2 ^ 64 - 1

/-- An `Operation`: a gate name and its ordered target qubits. -/
structure Operation where
  name : String
  targets : List Nat
deriving DecidableEq, Repr

/-- Modelled from the spec: `SparsePauliWord` is declared outside the translated
sources. One indexed word of a sparse Pauli operator: the position of the word
and the X and Z bits it carries. -/
structure SparsePauliWord where
  index : Nat
  wx : Nat
  wz : Nat
deriving DecidableEq, Repr

/-- Modelled from the spec: `SparsePauliString` is declared outside the
translated sources. The result the simulator reports for one collapsed qubit:
its sign and the indexed words of the destabilizer, empty when the outcome was
already determined. Only the members `sign` and `indexed_words` are used by the
translated code. -/
structure SparsePauliString where
  sign : Bool
  indexed_words : List SparsePauliWord
deriving DecidableEq, Repr

/-- A collapse event of a cycle, built from a collapse result by `emplace_back`. -/
structure PauliFrameSimCollapse where
  destabilizer : SparsePauliString
deriving DecidableEq, Repr

/-- A measurement report of a cycle, built by `emplace_back(q, sign)`. -/
structure PauliFrameSimMeasurement where
  target_qubit : Nat
  invert : Bool
deriving DecidableEq, Repr

/-- One cycle: the four phases, each an ordered list. A value-initialised cycle
(`partial_cycle = {}`) has all four empty. -/
structure PauliFrameSimCycle where
  step1_unitary : List Operation := []
  step2_collapse : List PauliFrameSimCollapse := []
  step3_measure : List PauliFrameSimMeasurement := []
  step4_reset : List Nat := []
deriving DecidableEq, Repr

/-- The recorded program. -/
structure PauliFrameSimulation where
  num_qubits : Nat := 0
  num_measurements : Nat := 0
  cycles : List PauliFrameSimCycle := []
deriving DecidableEq, Repr

/-! ## The exact simulator, as an interface -/

/-- The members of `ChpSim` that the recorder calls, over an arbitrary state
type. Whatever randomness the simulator uses is part of its state, so
quantifying over implementations and states covers every behaviour. -/
structure ChpSim (σ : Type) where
  /-- The constructor `ChpSim sim(num_qubits)`. -/
  init : Nat → σ
  /-- The call `sim.func_op(name, targets)`. -/
  func_op : σ → String → List Nat → σ
  /-- The call `sim.inspected_collapse(targets)`: the returned vector and the
  state left behind. -/
  inspected_collapse : σ → List Nat → List SparsePauliString × σ
  /-- The call `sim.reset_many(targets)`. -/
  reset_many : σ → List Nat → σ

/-! ## The recorder -/

def PHASE_UNITARY : Nat := 0

def PHASE_COLLAPSED : Nat := 1

def PHASE_RESET : Nat := 2

/-- The header of the program after the first loop over the operations. -/
def prescan_op (rs : PauliFrameSimulation) (op : Operation) : PauliFrameSimulation :=
  let rs1 : PauliFrameSimulation :=
    op.targets.foldl (fun r q => { r with num_qubits := max r.num_qubits ((q + 1) % SIZE_MOD) }) rs
  if op.name = "M" then
    { rs1 with num_measurements := (rs1.num_measurements + op.targets.length) % SIZE_MOD }
  else rs1

/-- The first loop of `recorded_from_tableau_sim`, started from a
value-initialised program. -/
def prescan (operations : List Operation) : PauliFrameSimulation :=
  operations.foldl prescan_op {}

/-- The local state of the second loop: the cycles pushed so far, the cycle
under construction, the phase marker of every qubit (a missing key of the
`unordered_map` reads as 0) and the simulator. -/
structure RecorderState (σ : Type) where
  cycles : List PauliFrameSimCycle
  partial_cycle : PauliFrameSimCycle
  qubit_phases : Nat → Nat
  sim : σ

/-- The lambda `start_next_moment`. -/
def start_next_moment {σ : Type} (st : RecorderState σ) : RecorderState σ :=
  { st with
    cycles := st.cycles ++ [st.partial_cycle]
    partial_cycle := {}
    qubit_phases := fun _ => 0 }

/-- The loop `for (auto q : op.targets) if (qubit_phases[q] > limit)
{ start_next_moment(); break; }`. -/
def split_on_conflict {σ : Type} (limit : Nat) : List Nat → RecorderState σ → RecorderState σ
  | [], st => st
  | q :: qs, st =>
    if st.qubit_phases q > limit then start_next_moment st
    else split_on_conflict limit qs st

/-- Assignment `qubit_phases[q] = phase`. -/
def set_phase (phases : Nat → Nat) (q phase : Nat) : Nat → Nat :=
  fun k => if k = q then phase else phases k

/-- The part of both collapse loops that records a collapse event when the
result consumed stabilizer rows. -/
def push_collapse (cycle : PauliFrameSimCycle) (r : SparsePauliString) : PauliFrameSimCycle :=
  if r.indexed_words.isEmpty then cycle
  else { cycle with step2_collapse := cycle.step2_collapse ++ [⟨r⟩] }

/-- The loop over `collapse_results` of an `M` operation, from index `k` on.
Reading `op.targets[k]` past the end of the targets has no defined behaviour:
the model stops with `none`. -/
def measure_loop {σ : Type} (targets : List Nat) :
    List SparsePauliString → Nat → RecorderState σ → Option (RecorderState σ)
  | [], _, st => some st
  | r :: rs, k, st =>
    match targets[k]? with
    | none => none
    | some q =>
      let c1 := push_collapse st.partial_cycle r
      measure_loop targets rs (k + 1)
        { st with
          qubit_phases := set_phase st.qubit_phases q PHASE_COLLAPSED
          partial_cycle := { c1 with step3_measure := c1.step3_measure ++ [⟨q, r.sign⟩] } }

/-- The loop over `collapse_results` of an `R` operation, from index `k` on. -/
def reset_loop {σ : Type} (targets : List Nat) :
    List SparsePauliString → Nat → RecorderState σ → Option (RecorderState σ)
  | [], _, st => some st
  | r :: rs, k, st =>
    match targets[k]? with
    | none => none
    | some q =>
      let c1 := push_collapse st.partial_cycle r
      reset_loop targets rs (k + 1)
        { st with
          partial_cycle := { c1 with step4_reset := c1.step4_reset ++ [q] }
          qubit_phases := set_phase st.qubit_phases q PHASE_RESET }

/-- One iteration of the second loop of `recorded_from_tableau_sim`. -/
def record_op {σ : Type} (S : ChpSim σ) (st : RecorderState σ) (op : Operation) :
    Option (RecorderState σ) :=
  if op.name = "X" ∨ op.name = "Y" ∨ op.name = "Z" then
    some { st with sim := S.func_op st.sim op.name op.targets }
  else if op.name = "TICK" then
    some st
  else if op.name = "M" then
    let st1 := split_on_conflict PHASE_COLLAPSED op.targets st
    let res := S.inspected_collapse st1.sim op.targets
    measure_loop op.targets res.1 0 { st1 with sim := res.2 }
  else if op.name = "R" then
    let res := S.inspected_collapse st.sim op.targets
    (reset_loop op.targets res.1 0 { st with sim := res.2 }).map
      (fun st2 => { st2 with sim := S.reset_many st2.sim op.targets })
  else
    let st1 := split_on_conflict PHASE_UNITARY op.targets st
    some { st1 with
      partial_cycle :=
        { st1.partial_cycle with step1_unitary := st1.partial_cycle.step1_unitary ++ [op] }
      sim := S.func_op st1.sim op.name op.targets }

/-- The second loop of `recorded_from_tableau_sim`. -/
def record_ops {σ : Type} (S : ChpSim σ) :
    List Operation → RecorderState σ → Option (RecorderState σ)
  | [], st => some st
  | op :: ops, st => (record_op S st op).bind (record_ops S ops)

/-- The state in which the second loop starts: no cycle, an empty partial
cycle, no phase marker, and a simulator built for `num_qubits` qubits. -/
def recorder_init {σ : Type} (S : ChpSim σ) (num_qubits : Nat) : RecorderState σ :=
  { cycles := [], partial_cycle := {}, qubit_phases := fun _ => 0, sim := S.init num_qubits }

/-- The test `size() || size() || size() || size()` before the last push. -/
def PauliFrameSimCycle.has_content (c : PauliFrameSimCycle) : Bool :=
  c.step1_unitary.length != 0 || c.step2_collapse.length != 0
    || c.step3_measure.length != 0 || c.step4_reset.length != 0

/-- The cycles of the returned program: the pushed ones and the partial cycle
when it has content. -/
def flush {σ : Type} (st : RecorderState σ) : List PauliFrameSimCycle :=
  if st.partial_cycle.has_content then st.cycles ++ [st.partial_cycle] else st.cycles

/-- The function `PauliFrameSimulation::recorded_from_tableau_sim`. -/
def PauliFrameSimulation.recorded_from_tableau_sim {σ : Type} (S : ChpSim σ)
    (operations : List Operation) : Option PauliFrameSimulation :=
  let resulting_simulation := prescan operations
  (record_ops S operations (recorder_init S resulting_simulation.num_qubits)).map
    (fun st => { resulting_simulation with cycles := flush st })

/-! ## The replay on one frame -/

/-- Modelled from the spec: `PauliStringVal` and `PauliStringPtr` are declared
outside the translated sources. A Pauli frame is one X bit and one Z bit per
qubit, no sign; `num_qubits` is the size it was constructed with. -/
structure PauliFrame where
  num_qubits : Nat
  x : Nat → Bool
  z : Nat → Bool

/-- Modelled from the spec: the frame `PauliStringVal(num_qubits)` is the
identity, no X and no Z on any qubit. -/
def PauliFrame.identity (num_qubits : Nat) : PauliFrame :=
  { num_qubits := num_qubits, x := fun _ => false, z := fun _ => false }

/-- Modelled from the spec: bit-level getter of the X bit of qubit `q`. -/
def PauliFrame.get_x_bit (f : PauliFrame) (q : Nat) : Bool := f.x q

/-- Modelled from the spec: bit-level getter of the Z bit of qubit `q`. -/
def PauliFrame.get_z_bit (f : PauliFrame) (q : Nat) : Bool := f.z q

/-- Modelled from the spec: bit-level setter of the X bit of qubit `q`. -/
def PauliFrame.set_x_bit (f : PauliFrame) (q : Nat) (b : Bool) : PauliFrame :=
  { f with x := fun k => if k = q then b else f.x k }

/-- Modelled from the spec: bit-level setter of the Z bit of qubit `q`. -/
def PauliFrame.set_z_bit (f : PauliFrame) (q : Nat) (b : Bool) : PauliFrame :=
  { f with z := fun k => if k = q then b else f.z k }

/-- The two transformations of the Pauli string algebra that the replay calls;
their definitions are outside the translated sources, so they are arbitrary. -/
structure PauliOps where
  /-- The call `pauli_frame.unsigned_conjugate_by(name, targets)`. -/
  unsigned_conjugate_by : PauliFrame → String → List Nat → PauliFrame
  /-- The call `pauli_frame.unsigned_multiply_by(destabilizer)`. -/
  unsigned_multiply_by : PauliFrame → SparsePauliString → PauliFrame

/-- Modelled from the spec: the generator together with the fair-coin
distribution is a source of coin flips; `coins i` is the outcome of the draw
number `i` and `drawn` counts the draws made so far. -/
structure Rng where
  coins : Nat → Bool
  drawn : Nat

/-- The call `rand_bit(rng)`: the next coin, and the advanced generator. -/
def rand_bit (rng : Rng) : Bool × Rng :=
  (rng.coins rng.drawn, { rng with drawn := rng.drawn + 1 })

/-- Modelled from the spec: `aligned_bits256::set_bit(k, b)` on a bit vector
read as a map from positions to bits. -/
def set_bit (out : Nat → Bool) (k : Nat) (b : Bool) : Nat → Bool :=
  fun i => if i = k then b else out i

/-- What `sample` holds while it runs: the local frame and report cursor, and
the two arguments it mutates. -/
structure SampleState where
  pauli_frame : PauliFrame
  result_count : Nat
  out : Nat → Bool
  rng : Rng

/-- Body of the loop over `cycle.step1_unitary`. -/
def sample_unitary (P : PauliOps) (st : SampleState) (op : Operation) : SampleState :=
  { st with pauli_frame := P.unsigned_conjugate_by st.pauli_frame op.name op.targets }

/-- Body of the loop over `cycle.step2_collapse`. -/
def sample_collapse (P : PauliOps) (st : SampleState) (collapse : PauliFrameSimCollapse) :
    SampleState :=
  let flip := rand_bit st.rng
  if flip.1 then
    { st with
      rng := flip.2
      pauli_frame := P.unsigned_multiply_by st.pauli_frame collapse.destabilizer }
  else { st with rng := flip.2 }

/-- Body of the loop over `cycle.step3_measure`. -/
def sample_measure (st : SampleState) (measurement : PauliFrameSimMeasurement) : SampleState :=
  let q := measurement.target_qubit
  { st with
    out := set_bit st.out st.result_count (xor (st.pauli_frame.get_x_bit q) measurement.invert)
    result_count := (st.result_count + 1) % SIZE_MOD }

/-- Body of the loop over `cycle.step4_reset`. -/
def sample_reset (st : SampleState) (q : Nat) : SampleState :=
  { st with pauli_frame := (st.pauli_frame.set_z_bit q false).set_x_bit q false }

/-- The state when the report loop of a cycle starts: after its unitaries and
its collapse events. -/
def sample_before_measure (P : PauliOps) (st : SampleState) (cycle : PauliFrameSimCycle) :
    SampleState :=
  cycle.step2_collapse.foldl (sample_collapse P)
    (cycle.step1_unitary.foldl (sample_unitary P) st)

/-- The state when the reset loop of a cycle starts. -/
def sample_before_reset (P : PauliOps) (st : SampleState) (cycle : PauliFrameSimCycle) :
    SampleState :=
  cycle.step3_measure.foldl sample_measure (sample_before_measure P st cycle)

/-- Body of the loop over the cycles. -/
def sample_cycle (P : PauliOps) (st : SampleState) (cycle : PauliFrameSimCycle) : SampleState :=
  cycle.step4_reset.foldl sample_reset (sample_before_reset P st cycle)

/-- The state in which the loop over the cycles starts. -/
def sample_init (ps : PauliFrameSimulation) (out : Nat → Bool) (rng : Rng) : SampleState :=
  { pauli_frame := PauliFrame.identity ps.num_qubits, result_count := 0, out := out, rng := rng }

/-- The function `PauliFrameSimulation::sample`: the state it ends in, whose
`out` and `rng` are the arguments as the caller finds them afterwards. -/
def PauliFrameSimulation.sample (P : PauliOps) (ps : PauliFrameSimulation)
    (out : Nat → Bool) (rng : Rng) : SampleState :=
  ps.cycles.foldl (sample_cycle P) (sample_init ps out rng)

/-! ## The replay over frame accessors that may fail -/

/-- The loop `for (auto q : targets) out << " " << q`, the text written so far
being `out`; an index is written in decimal. -/
def write_targets (out : String) (targets : List Nat) : String :=
  targets.foldl (fun o q => o ++ " " ++ toString q) out

/-- Body of the loop over `cycle.step1_unitary` in `operator<<`. -/
def write_unitary (out : String) (op : Operation) : String :=
  write_targets (out ++ op.name) op.targets ++ "\n"

/-- The call `s.substr(1)`: the string without its first character; it throws
`std::out_of_range` on the empty string, which the model reports as `none`. -/
def substr_from_1 (s : String) : Option String :=
  if 1 ≤ s.length then some (s.drop 1) else none

/-- Body of the loop over `cycle.step2_collapse` in `operator<<`; `str` is
`SparsePauliString::str`, which is outside the translated sources. -/
def write_collapse (str : SparsePauliString → String) (out : String)
    (collapse : PauliFrameSimCollapse) : Option String :=
  (substr_from_1 (str collapse.destabilizer)).map
    (fun t => out ++ "RANDOM_INTO_FRAME " ++ t ++ "\n")

/-- The loop over `cycle.step2_collapse` in `operator<<`. -/
def write_collapses (str : SparsePauliString → String) :
    List PauliFrameSimCollapse → String → Option String
  | [], out => some out
  | e :: es, out => (write_collapse str out e).bind (write_collapses str es)

/-- Body of the loop over `cycle.step3_measure` in `operator<<`. -/
def write_measure (out : String) (q : PauliFrameSimMeasurement) : String :=
  let o1 := out ++ " "
  let o2 := if q.invert then o1 ++ "!" else o1
  o2 ++ toString q.target_qubit

/-- Body of the loop over `ps.cycles` in `operator<<`. -/
def write_cycle (str : SparsePauliString → String) (out : String) (cycle : PauliFrameSimCycle) :
    Option String :=
  (write_collapses str cycle.step2_collapse (cycle.step1_unitary.foldl write_unitary out)).map
    (fun o2 =>
      let o3 :=
        if !cycle.step3_measure.isEmpty then
          cycle.step3_measure.foldl write_measure (o2 ++ "REPORT_FRAME") ++ "\n"
        else o2
      if !cycle.step4_reset.isEmpty then write_targets (o3 ++ "R") cycle.step4_reset ++ "\n"
      else o3)

/-- The loop over `ps.cycles` in `operator<<`. -/
def write_cycles (str : SparsePauliString → String) :
    List PauliFrameSimCycle → String → Option String
  | [], out => some out
  | c :: cs, out => (write_cycle str out c).bind (write_cycles str cs)

/-- The function `operator<<(std::ostream &, const PauliFrameSimulation &)`:
the text of the stream afterwards, `out` being the text before. -/
def print (str : SparsePauliString → String) (out : String) (ps : PauliFrameSimulation) :
    Option String :=
  write_cycles str ps.cycles out

/-- The function `PauliFrameSimulation::str`: the program printed into an empty
string stream. -/
def PauliFrameSimulation.str (str : SparsePauliString → String) (ps : PauliFrameSimulation) :
    Option String :=
  print str "" ps

/-! ## The bulk replay engine -/

/-- The collapse result of an outcome already determined to be `false`. -/
def deterministic_result_false : SparsePauliString :=
  { sign := false, indexed_words := [] }

/-- A simulator that answers its successive `inspected_collapse` calls from a
script, one scripted result per target (a deterministic `false` where the
script has none), and ignores everything else: a stand-in that can show any
sequence of collapse results to the recorder. -/
def scriptedSim (script : List (List SparsePauliString)) :
    ChpSim (List (List SparsePauliString)) where
  init := fun _ => script
  func_op := fun s _ _ => s
  inspected_collapse := fun s targets =>
    ((List.range targets.length).map (fun k => (s.headD []).getD k deterministic_result_false),
      s.tail)
  reset_many := fun s _ => s

/-- A collapse result that consumed no stabilizer row. -/
def deterministic_result (sign : Bool) : SparsePauliString :=
  { sign := sign, indexed_words := [] }

/-- A collapse result that consumed one stabilizer row, with an X on the
qubit `q` as destabilizer. -/
def random_result (sign : Bool) (q : Nat) : SparsePauliString :=
  { sign := sign, indexed_words := [⟨q / 64, 2 ^ (q % 64), 0⟩] }

/-- Frame transformations that leave the frame alone on every gate and product. -/
def idleOps : PauliOps where
  unsigned_conjugate_by := fun f _ _ => f
  unsigned_multiply_by := fun f _ => f

/-- The bits of one 64-bit word XORed into the bits of the qubits `64 * index`
to `64 * index + 63`. -/
def xor_word (bits : Nat → Bool) (index word : Nat) : Nat → Bool :=
  fun q => if q / 64 = index then xor (bits q) (word.testBit (q % 64)) else bits q

/-- Frame transformations for the examples: a gate leaves the frame alone and a
product XORs the indexed words of the destabilizer into the frame. -/
def kickbackOps : PauliOps where
  unsigned_conjugate_by := fun f _ _ => f
  unsigned_multiply_by := fun f d =>
    d.indexed_words.foldl
      (fun g w => { g with x := xor_word g.x w.index w.wx, z := xor_word g.z w.index w.wz }) f

/-- A cycle for the examples: a random collapse of qubit 0, its report, and a
reset of qubit 0. -/
def example_cycle : PauliFrameSimCycle :=
  { step2_collapse := [⟨random_result true 0⟩], step3_measure := [⟨0, true⟩],
    step4_reset := [0] }

/-- A program for the examples: `example_cycle`, then a report of qubit 0. -/
def example_program : PauliFrameSimulation :=
  { num_qubits := 1, num_measurements := 2,
    cycles := [example_cycle, { step3_measure := [⟨0, false⟩] }] }

/-- A coin source for the examples: every coin comes up heads. -/
def all_heads : Rng := { coins := fun _ => true, drawn := 0 }

/-- A program for the examples: `H 0`, a random collapse of qubit 0 with an
inverted report, a reset, then a second report of qubit 0. -/
def example_gate_program : PauliFrameSimulation :=
  { num_qubits := 1, num_measurements := 2,
    cycles := [{ step1_unitary := [⟨"H", [0]⟩], step2_collapse := [⟨random_result true 0⟩],
                 step3_measure := [⟨0, true⟩], step4_reset := [0] },
               { step3_measure := [⟨0, false⟩] }] }

/-- A coin source for the examples: every coin comes up tails. -/
def all_tails : Rng := { coins := fun _ => false, drawn := 0 }

/-- A cycle for the examples: two random collapses, of qubit 0 and of qubit 1,
and the reports of both qubits. -/
def two_collapse_cycle : PauliFrameSimCycle :=
  { step2_collapse := [⟨random_result true 0⟩, ⟨random_result true 1⟩],
    step3_measure := [⟨0, false⟩, ⟨1, false⟩] }

/-- A program for the examples: the single cycle `two_collapse_cycle`. -/
def two_collapse_program : PauliFrameSimulation :=
  { num_qubits := 2, num_measurements := 2, cycles := [two_collapse_cycle] }

/-- A coin source for the examples: heads on the first draw, tails afterwards. -/
def heads_then_tails : Rng := { coins := fun k => decide (k = 0), drawn := 0 }

/-! ## Reading a program and a stream -/

/-- The recorded unitaries of a list of cycles, cycle by cycle. -/
def all_unitary (cs : List PauliFrameSimCycle) : List Operation :=
  cs.flatMap (fun c => c.step1_unitary)

/-- The collapse events of a list of cycles, cycle by cycle. -/
def all_collapse (cs : List PauliFrameSimCycle) : List PauliFrameSimCollapse :=
  cs.flatMap (fun c => c.step2_collapse)

/-- The measurement reports of a list of cycles, cycle by cycle. -/
def all_measure (cs : List PauliFrameSimCycle) : List PauliFrameSimMeasurement :=
  cs.flatMap (fun c => c.step3_measure)

/-- The collapse events that a vector of collapse results gives rise to: one
for every result with a non-empty `indexed_words`. -/
def collapse_events (rs : List SparsePauliString) : List PauliFrameSimCollapse :=
  (rs.filter (fun r => !r.indexed_words.isEmpty)).map PauliFrameSimCollapse.mk

/-- The reports that the results of a measurement give rise to: target number
`k` with the sign of result number `k`. -/
def measure_reports (targets : List Nat) (rs : List SparsePauliString) :
    List PauliFrameSimMeasurement :=
  List.zipWith (fun q r => (⟨q, r.sign⟩ : PauliFrameSimMeasurement)) targets rs

/-- The state a completed `measure_loop` ends in, in closed form. -/
def measure_loop_result {σ : Type} (targets : List Nat) (rs : List SparsePauliString) (k : Nat)
    (st : RecorderState σ) : RecorderState σ :=
  { cycles := st.cycles
    sim := st.sim
    partial_cycle :=
      { step1_unitary := st.partial_cycle.step1_unitary
        step2_collapse := st.partial_cycle.step2_collapse ++ collapse_events rs
        step3_measure := st.partial_cycle.step3_measure ++ measure_reports (targets.drop k) rs
        step4_reset := st.partial_cycle.step4_reset }
    qubit_phases := fun q =>
      if q ∈ (targets.drop k).take rs.length then PHASE_COLLAPSED else st.qubit_phases q }

/-- The state a completed `reset_loop` ends in, in closed form. -/
def reset_loop_result {σ : Type} (targets : List Nat) (rs : List SparsePauliString) (k : Nat)
    (st : RecorderState σ) : RecorderState σ :=
  { cycles := st.cycles
    sim := st.sim
    partial_cycle :=
      { step1_unitary := st.partial_cycle.step1_unitary
        step2_collapse := st.partial_cycle.step2_collapse ++ collapse_events rs
        step3_measure := st.partial_cycle.step3_measure
        step4_reset := st.partial_cycle.step4_reset ++ (targets.drop k).take rs.length }
    qubit_phases := fun q =>
      if q ∈ (targets.drop k).take rs.length then PHASE_RESET else st.qubit_phases q }

/-- The qubits of the reports of a cycle, in recorded order. -/
def PauliFrameSimCycle.measured_qubits (c : PauliFrameSimCycle) : List Nat :=
  c.step3_measure.map (fun m => m.target_qubit)

/-- The operations that reach the last branch of the recorder's loop: every
name other than `X`, `Y`, `Z`, `TICK`, `M` and `R`. -/
def Operation.is_recorded_gate (op : Operation) : Bool :=
  decide (¬ (op.name = "X" ∨ op.name = "Y" ∨ op.name = "Z") ∧ op.name ≠ "TICK"
    ∧ op.name ≠ "M" ∧ op.name ≠ "R")

/-- The phase markers describe the partial cycle: a qubit is marked above
`PHASE_COLLAPSED` exactly when it is in `step4_reset`, and above
`PHASE_UNITARY` exactly when it is reported or reset in the partial cycle. -/
def phases_track_cycle {σ : Type} (st : RecorderState σ) : Prop :=
  (∀ q, q ∈ st.partial_cycle.step4_reset ↔ PHASE_COLLAPSED < st.qubit_phases q)
  ∧ (∀ q, (q ∈ st.partial_cycle.measured_qubits ∨ q ∈ st.partial_cycle.step4_reset)
        ↔ PHASE_UNITARY < st.qubit_phases q)

/-- Every cycle pushed so far has content. -/
def pushed_have_content {σ : Type} (st : RecorderState σ) : Prop :=
  ∀ c ∈ st.cycles, c.has_content = true

/-- The simulator answers a collapse with at most one result per target, so
that the recorder never reads past the end of the targets. -/
def collapse_within_targets {σ : Type} (S : ChpSim σ) : Prop :=
  ∀ (s : σ) (targets : List Nat), (S.inspected_collapse s targets).1.length ≤ targets.length

/-- The simulator answers a collapse with exactly one result per target. -/
def collapse_one_per_target {σ : Type} (S : ChpSim σ) : Prop :=
  ∀ (s : σ) (targets : List Nat), (S.inspected_collapse s targets).1.length = targets.length

/-- The cycles recorded so far, the partial cycle last. -/
def RecorderState.history {σ : Type} (st : RecorderState σ) : List PauliFrameSimCycle :=
  st.cycles ++ [st.partial_cycle]

/-- One collapse result as the simulator returned it during a run: whether it
answered an `M` (otherwise an `R`), the target it is for, and the result. -/
structure CollapseRecord where
  from_measure : Bool
  qubit : Nat
  result : SparsePauliString
deriving DecidableEq, Repr

/-- Reference reading of the stream: the simulator state after one operation,
`X`, `Y`, `Z` and every recorded gate being applied, `TICK` skipped, `M`
collapsing its targets and `R` collapsing and then resetting them. -/
def spec_sim_after {σ : Type} (S : ChpSim σ) (s : σ) (op : Operation) : σ :=
  if op.name = "TICK" then s
  else if op.name = "M" then (S.inspected_collapse s op.targets).2
  else if op.name = "R" then S.reset_many (S.inspected_collapse s op.targets).2 op.targets
  else S.func_op s op.name op.targets

/-- Reference reading of the stream: the collapse results the simulator returns
for the targets of one operation, target number `k` with result number `k`. -/
def spec_collapses_of {σ : Type} (S : ChpSim σ) (s : σ) (op : Operation) : List CollapseRecord :=
  if op.name = "M" then
    List.zipWith (fun q r => (⟨true, q, r⟩ : CollapseRecord)) op.targets
      (S.inspected_collapse s op.targets).1
  else if op.name = "R" then
    List.zipWith (fun q r => (⟨false, q, r⟩ : CollapseRecord)) op.targets
      (S.inspected_collapse s op.targets).1
  else []

/-- Reference reading of the stream: all collapse results the simulator returns
while the stream is played on it from state `s`, in stream order. -/
def spec_collapse_trace {σ : Type} (S : ChpSim σ) : List Operation → σ → List CollapseRecord
  | [], _ => []
  | op :: ops, s => spec_collapses_of S s op ++ spec_collapse_trace S ops (spec_sim_after S s op)

/-- Reference reading of a trace: the collapse events it calls for, one per
result whose `indexed_words` is not empty. -/
def spec_trace_events (trace : List CollapseRecord) : List PauliFrameSimCollapse :=
  (trace.filter (fun e => !e.result.indexed_words.isEmpty)).map (fun e => ⟨e.result⟩)

/-- Reference reading of a trace: the reports it calls for, one per result that
answered an `M`, deterministic or not. -/
def spec_trace_reports (trace : List CollapseRecord) : List PauliFrameSimMeasurement :=
  (trace.filter (fun e => e.from_measure)).map (fun e => ⟨e.qubit, e.result.sign⟩)

/-- Reference reading of the stream: the operations to record, in order. -/
def spec_recorded_gates (ops : List Operation) : List Operation :=
  ops.filter (fun op => op.is_recorded_gate)

/-- Reference reading of the stream: the targets of its `M` operations,
concatenated in stream order. -/
def spec_measured_targets (ops : List Operation) : List Nat :=
  (ops.filter (fun op => decide (op.name = "M"))).flatMap (fun op => op.targets)

/-- Reference reading of the stream: every target of every operation. -/
def spec_all_targets (ops : List Operation) : List Nat :=
  ops.flatMap (fun op => op.targets)

/-- Reference reading of the stream: the largest target index plus one, or 0
when no operation has a target. -/
def spec_num_qubits (ops : List Operation) : Nat :=
  if spec_all_targets ops = [] then 0 else (spec_all_targets ops).foldl max 0 + 1

/-- Reference reading of the stream: the sum of the target-list lengths of the
operations named `M`. -/
def spec_num_measurements (ops : List Operation) : Nat :=
  ((ops.filter (fun op => decide (op.name = "M"))).map (fun op => op.targets.length)).sum

/-- Reference reading of the replay: the bits reported while the cycles are
played from the state `st`, cycle by cycle and within a cycle in the order of
`step3_measure`; the bit of a report `(q, invert)` is the X bit of `q` in the
frame after the unitaries and collapse events of its cycle, XOR `invert`. -/
def spec_report_bits (P : PauliOps) : List PauliFrameSimCycle → SampleState → List Bool
  | [], _ => []
  | c :: cs, st =>
    c.step3_measure.map
        (fun m => xor ((sample_before_measure P st c).pauli_frame.get_x_bit m.target_qubit)
          m.invert)
      ++ spec_report_bits P cs (sample_cycle P st c)

/-- Reference reading of the replay: the bit vector `out` with `bits` written
from position `k` on, every other position as it was. -/
def spec_written (out : Nat → Bool) (k : Nat) (bits : List Bool) : Nat → Bool :=
  fun i => if k ≤ i ∧ i < k + bits.length then bits.getD (i - k) false else out i

/-- Two states of the replay that differ at most in their coin source. -/
def SampleState.agree (st1 st2 : SampleState) : Prop :=
  st1.pauli_frame = st2.pauli_frame ∧ st1.result_count = st2.result_count ∧ st1.out = st2.out

/-- Reference reading of the stream: it has no phase-ordering conflict, that is,
no recorded gate targets a qubit that an earlier `M` or `R` of the stream
targeted, and no `M` targets a qubit that an earlier `R` targeted. -/
def spec_no_reuse (ops : List Operation) : Prop :=
  ∀ (before after : List Operation) (op : Operation), ops = before ++ op :: after →
    (op.is_recorded_gate = true →
      ∀ e ∈ before, (e.name = "M" ∨ e.name = "R") → ∀ q ∈ op.targets, q ∉ e.targets)
    ∧ (op.name = "M" → ∀ e ∈ before, e.name = "R" → ∀ q ∈ op.targets, q ∉ e.targets)

/-- No cycle has been pushed, and every phase marker comes from an operation of
`done`: a marker above `PHASE_UNITARY` from an `M` or `R` on that qubit, a
marker above `PHASE_COLLAPSED` from an `R` on it. -/
def marks_from {σ : Type} (done : List Operation) (st : RecorderState σ) : Prop :=
  st.cycles = []
  ∧ (∀ q, PHASE_UNITARY < st.qubit_phases q →
      ∃ e ∈ done, (e.name = "M" ∨ e.name = "R") ∧ q ∈ e.targets)
  ∧ (∀ q, PHASE_COLLAPSED < st.qubit_phases q → ∃ e ∈ done, e.name = "R" ∧ q ∈ e.targets)

/-- The simulator `S` with a log: it behaves as `S` and appends to the log every
qubit index it is passed by `func_op`, `inspected_collapse` and `reset_many`. -/
def loggedSim {σ : Type} (S : ChpSim σ) : ChpSim (σ × List Nat) where
  init := fun n => (S.init n, [])
  func_op := fun s name targets => (S.func_op s.1 name targets, s.2 ++ targets)
  inspected_collapse := fun s targets =>
    ((S.inspected_collapse s.1 targets).1,
      ((S.inspected_collapse s.1 targets).2, s.2 ++ targets))
  reset_many := fun s targets => (S.reset_many s.1 targets, s.2 ++ targets)

/-- The recorder state with the log of the simulator dropped. -/
def unlog {σ : Type} (st : RecorderState (σ × List Nat)) : RecorderState σ :=
  { cycles := st.cycles, partial_cycle := st.partial_cycle, qubit_phases := st.qubit_phases,
    sim := st.sim.1 }

/-- Every qubit index the cycle records, in a unitary's targets, a report or a
reset, is below `n`. -/
def PauliFrameSimCycle.within (n : Nat) (c : PauliFrameSimCycle) : Prop :=
  (∀ op ∈ c.step1_unitary, ∀ q ∈ op.targets, q < n)
  ∧ (∀ m ∈ c.step3_measure, m.target_qubit < n)
  ∧ (∀ q ∈ c.step4_reset, q < n)

/-- The qubit indices that one iteration of the recorder passes to the
simulator: none for a `TICK`, the targets twice for an `R` (collapse, then
reset), the targets once for every other operation. -/
def passed_indices (op : Operation) : List Nat :=
  if op.name = "TICK" then []
  else if op.name = "R" then op.targets ++ op.targets
  else op.targets

/-- Strings put one after the other. -/
def concat_all (parts : List String) : String :=
  parts.foldr (fun part rest => part ++ rest) ""

/-- Reference reading of the text form: a space and the index, for each index. -/
def spec_index_list (targets : List Nat) : String :=
  concat_all (targets.map (fun q => " " ++ toString q))

/-- Reference reading of the text form: the line `NAME t0 t1 ...` of a unitary. -/
def spec_unitary_line (op : Operation) : String :=
  op.name ++ spec_index_list op.targets ++ "\n"

/-- Reference reading of the text form: the line of a collapse event,
`RANDOM_INTO_FRAME ` and the destabilizer's string without its first character. -/
def spec_collapse_line (str : SparsePauliString → String) (e : PauliFrameSimCollapse) : String :=
  "RANDOM_INTO_FRAME " ++ (str e.destabilizer).drop 1 ++ "\n"

/-- Reference reading of the text form: the line `REPORT_FRAME` with, for each
report, a space, a `!` when it is inverted, and the qubit index. -/
def spec_report_line (ms : List PauliFrameSimMeasurement) : String :=
  "REPORT_FRAME"
    ++ concat_all (ms.map (fun m =>
        " " ++ ((if m.invert then "!" else "") ++ toString m.target_qubit)))
    ++ "\n"

/-- Reference reading of the text form: the line `R` with its qubit indices. -/
def spec_reset_line (qs : List Nat) : String :=
  "R" ++ spec_index_list qs ++ "\n"

/-- Reference reading of the text form: the lines of one cycle. -/
def spec_cycle_text (str : SparsePauliString → String) (c : PauliFrameSimCycle) : String :=
  concat_all (c.step1_unitary.map spec_unitary_line)
    ++ (concat_all (c.step2_collapse.map (spec_collapse_line str))
    ++ ((if c.step3_measure = [] then "" else spec_report_line c.step3_measure)
    ++ (if c.step4_reset = [] then "" else spec_reset_line c.step4_reset)))

/-- Reference reading of the text form: the lines of all cycles, in order. -/
def spec_text (str : SparsePauliString → String) (ps : PauliFrameSimulation) : String :=
  concat_all (ps.cycles.map (spec_cycle_text str))

/-- A string function for the examples: the sign, then one `X` per indexed word. -/
def example_str (p : SparsePauliString) : String :=
  (if p.sign then "-" else "+") ++ concat_all (p.indexed_words.map (fun _ => "X"))

theorem collapse_events_cons (r : SparsePauliString) (rs : List SparsePauliString) :
    collapse_events (r :: rs)
      = (if r.indexed_words.isEmpty then [] else [⟨r⟩]) ++ collapse_events rs := by
  unfold collapse_events
  by_cases h : r.indexed_words.isEmpty <;> simp [List.filter_cons, h]

theorem push_collapse_eq (c : PauliFrameSimCycle) (r : SparsePauliString) :
    push_collapse c r
      = { c with step2_collapse :=
            c.step2_collapse ++ (if r.indexed_words.isEmpty then [] else [⟨r⟩]) } := by
  unfold push_collapse
  by_cases h : r.indexed_words.isEmpty <;> simp [h]

theorem measure_loop_eq {σ : Type} (targets : List Nat) :
    ∀ (rs : List SparsePauliString) (k : Nat) (st : RecorderState σ),
      rs.length + k ≤ targets.length →
      measure_loop targets rs k st = some (measure_loop_result targets rs k st) := by
  intro rs
  induction rs with
  | nil =>
    intro k st _
    simp [measure_loop, measure_loop_result, collapse_events, measure_reports]
  | cons r rs ih =>
    intro k st h
    have hk : k < targets.length := by simp at h; omega
    have hdrop := List.drop_eq_getElem_cons hk
    have hget : targets[k]? = some targets[k] := List.getElem?_eq_getElem hk
    unfold measure_loop
    rw [hget]
    simp only
    rw [ih (k + 1) _ (by simp at h ⊢; omega)]
    simp only [measure_loop_result, push_collapse_eq, collapse_events_cons, hdrop,
      measure_reports, List.zipWith_cons_cons, List.length_cons, List.take_succ_cons,
      List.mem_cons, set_phase, List.append_assoc, List.singleton_append]
    congr 2
    funext q
    by_cases hq : q = targets[k] <;> simp [hq]

theorem measure_loop_none {σ : Type} (targets : List Nat) :
    ∀ (rs : List SparsePauliString) (k : Nat) (st : RecorderState σ),
      rs ≠ [] → targets.length < rs.length + k → measure_loop targets rs k st = none := by
  intro rs
  induction rs with
  | nil => intro k st h; exact absurd rfl h
  | cons r rs ih =>
    intro k st _ h
    unfold measure_loop
    by_cases hk : k < targets.length
    · rw [List.getElem?_eq_getElem hk]
      simp only
      apply ih
      · intro hrs
        subst hrs
        simp at h
        omega
      · simp at h ⊢
        omega
    · rw [List.getElem?_eq_none (by omega)]

theorem measure_loop_zero_iff {σ : Type} (targets : List Nat) (rs : List SparsePauliString)
    (st st' : RecorderState σ) :
    measure_loop targets rs 0 st = some st'
      ↔ rs.length ≤ targets.length ∧ st' = measure_loop_result targets rs 0 st := by
  by_cases h : rs.length ≤ targets.length
  · rw [measure_loop_eq targets rs 0 st (by omega)]
    simp only [Option.some.injEq, h, true_and]
    exact eq_comm
  · have hne : rs ≠ [] := by
      intro hrs
      subst hrs
      simp at h
    rw [measure_loop_none targets rs 0 st hne (by omega)]
    simp [h]

theorem reset_loop_eq {σ : Type} (targets : List Nat) :
    ∀ (rs : List SparsePauliString) (k : Nat) (st : RecorderState σ),
      rs.length + k ≤ targets.length →
      reset_loop targets rs k st = some (reset_loop_result targets rs k st) := by
  intro rs
  induction rs with
  | nil =>
    intro k st _
    simp [reset_loop, reset_loop_result, collapse_events]
  | cons r rs ih =>
    intro k st h
    have hk : k < targets.length := by simp at h; omega
    have hdrop := List.drop_eq_getElem_cons hk
    have hget : targets[k]? = some targets[k] := List.getElem?_eq_getElem hk
    unfold reset_loop
    rw [hget]
    simp only
    rw [ih (k + 1) _ (by simp at h ⊢; omega)]
    simp only [reset_loop_result, push_collapse_eq, collapse_events_cons, hdrop,
      List.length_cons, List.take_succ_cons,
      List.mem_cons, set_phase, List.append_assoc, List.singleton_append]
    congr 2
    funext q
    by_cases hq : q = targets[k] <;> simp [hq]

theorem reset_loop_none {σ : Type} (targets : List Nat) :
    ∀ (rs : List SparsePauliString) (k : Nat) (st : RecorderState σ),
      rs ≠ [] → targets.length < rs.length + k → reset_loop targets rs k st = none := by
  intro rs
  induction rs with
  | nil => intro k st h; exact absurd rfl h
  | cons r rs ih =>
    intro k st _ h
    unfold reset_loop
    by_cases hk : k < targets.length
    · rw [List.getElem?_eq_getElem hk]
      simp only
      apply ih
      · intro hrs
        subst hrs
        simp at h
        omega
      · simp at h ⊢
        omega
    · rw [List.getElem?_eq_none (by omega)]

theorem reset_loop_zero_iff {σ : Type} (targets : List Nat) (rs : List SparsePauliString)
    (st st' : RecorderState σ) :
    reset_loop targets rs 0 st = some st'
      ↔ rs.length ≤ targets.length ∧ st' = reset_loop_result targets rs 0 st := by
  by_cases h : rs.length ≤ targets.length
  · rw [reset_loop_eq targets rs 0 st (by omega)]
    simp only [Option.some.injEq, h, true_and]
    exact eq_comm
  · have hne : rs ≠ [] := by
      intro hrs
      subst hrs
      simp at h
    rw [reset_loop_none targets rs 0 st hne (by omega)]
    simp [h]

theorem split_on_conflict_cases {σ : Type} (limit : Nat) (targets : List Nat)
    (st : RecorderState σ) :
    (split_on_conflict limit targets st = st ∧ ∀ q ∈ targets, st.qubit_phases q ≤ limit)
      ∨ (split_on_conflict limit targets st = start_next_moment st
          ∧ ∃ q ∈ targets, limit < st.qubit_phases q) := by
  induction targets with
  | nil => left; simp [split_on_conflict]
  | cons q qs ih =>
    unfold split_on_conflict
    by_cases hq : st.qubit_phases q > limit
    · right
      simp only [hq, if_true, true_and]
      exact ⟨q, List.mem_cons_self q qs, hq⟩
    · simp only [hq, if_false]
      rcases ih with ⟨h1, h2⟩ | ⟨h1, q', hq', hlt⟩
      · left
        refine ⟨h1, ?_⟩
        intro a ha
        rcases List.mem_cons.mp ha with rfl | ha
        · omega
        · exact h2 a ha
      · right
        exact ⟨h1, q', List.mem_cons_of_mem q hq', hlt⟩

/-! ## One iteration of the recorder, branch by branch -/

theorem record_op_pauli {σ : Type} (S : ChpSim σ) (st : RecorderState σ) (op : Operation)
    (h : op.name = "X" ∨ op.name = "Y" ∨ op.name = "Z") :
    record_op S st op = some { st with sim := S.func_op st.sim op.name op.targets } := by
  unfold record_op
  rw [if_pos h]

theorem record_op_tick {σ : Type} (S : ChpSim σ) (st : RecorderState σ) (op : Operation)
    (h : op.name = "TICK") : record_op S st op = some st := by
  unfold record_op
  rw [if_neg (by rw [h]; decide), if_pos h]

theorem record_op_measure {σ : Type} (S : ChpSim σ) (st : RecorderState σ) (op : Operation)
    (h : op.name = "M") :
    record_op S st op
      = measure_loop op.targets
          (S.inspected_collapse (split_on_conflict PHASE_COLLAPSED op.targets st).sim
            op.targets).1 0
          { split_on_conflict PHASE_COLLAPSED op.targets st with
            sim := (S.inspected_collapse (split_on_conflict PHASE_COLLAPSED op.targets st).sim
              op.targets).2 } := by
  unfold record_op
  rw [if_neg (by rw [h]; decide), if_neg (by rw [h]; decide), if_pos h]

theorem record_op_reset {σ : Type} (S : ChpSim σ) (st : RecorderState σ) (op : Operation)
    (h : op.name = "R") :
    record_op S st op
      = (reset_loop op.targets (S.inspected_collapse st.sim op.targets).1 0
          { st with sim := (S.inspected_collapse st.sim op.targets).2 }).map
          (fun st2 => { st2 with sim := S.reset_many st2.sim op.targets }) := by
  unfold record_op
  rw [if_neg (by rw [h]; decide), if_neg (by rw [h]; decide), if_neg (by rw [h]; decide),
    if_pos h]

theorem is_recorded_gate_iff (op : Operation) :
    op.is_recorded_gate = true
      ↔ ¬ (op.name = "X" ∨ op.name = "Y" ∨ op.name = "Z") ∧ op.name ≠ "TICK"
          ∧ op.name ≠ "M" ∧ op.name ≠ "R" := by
  unfold Operation.is_recorded_gate
  exact decide_eq_true_iff

theorem record_op_gate {σ : Type} (S : ChpSim σ) (st : RecorderState σ) (op : Operation)
    (h : op.is_recorded_gate = true) :
    record_op S st op
      = some { split_on_conflict PHASE_UNITARY op.targets st with
          partial_cycle :=
            { (split_on_conflict PHASE_UNITARY op.targets st).partial_cycle with
              step1_unitary :=
                (split_on_conflict PHASE_UNITARY op.targets st).partial_cycle.step1_unitary
                  ++ [op] }
          sim := S.func_op (split_on_conflict PHASE_UNITARY op.targets st).sim
            op.name op.targets } := by
  obtain ⟨h1, h2, h3, h4⟩ := (is_recorded_gate_iff op).mp h
  unfold record_op
  rw [if_neg h1, if_neg h2, if_neg h3, if_neg h4]

/-- The five branches of the loop body cover every operation. -/
theorem operation_cases (op : Operation) :
    (op.name = "X" ∨ op.name = "Y" ∨ op.name = "Z") ∨ op.name = "TICK" ∨ op.name = "M"
      ∨ op.name = "R" ∨ op.is_recorded_gate = true := by
  by_cases h1 : (op.name = "X" ∨ op.name = "Y" ∨ op.name = "Z")
  · exact Or.inl h1
  by_cases h2 : op.name = "TICK"
  · exact Or.inr (Or.inl h2)
  by_cases h3 : op.name = "M"
  · exact Or.inr (Or.inr (Or.inl h3))
  by_cases h4 : op.name = "R"
  · exact Or.inr (Or.inr (Or.inr (Or.inl h4)))
  exact Or.inr (Or.inr (Or.inr (Or.inr ((is_recorded_gate_iff op).mpr ⟨h1, h2, h3, h4⟩))))

theorem not_recorded_gate_of_measure (op : Operation) (h : op.name = "M") :
    op.is_recorded_gate = false := by
  simp [Operation.is_recorded_gate, h]

theorem not_recorded_gate_of_reset (op : Operation) (h : op.name = "R") :
    op.is_recorded_gate = false := by
  simp [Operation.is_recorded_gate, h]

theorem not_recorded_gate_of_tick (op : Operation) (h : op.name = "TICK") :
    op.is_recorded_gate = false := by
  simp [Operation.is_recorded_gate, h]

theorem not_recorded_gate_of_pauli (op : Operation)
    (h : op.name = "X" ∨ op.name = "Y" ∨ op.name = "Z") :
    op.is_recorded_gate = false := by
  simp [Operation.is_recorded_gate, h]

/-! ## The phase markers track the partial cycle -/

theorem phases_track_start {σ : Type} (st : RecorderState σ) :
    phases_track_cycle (start_next_moment st) := by
  constructor <;> intro q <;>
    simp [start_next_moment, PauliFrameSimCycle.measured_qubits, PHASE_COLLAPSED, PHASE_UNITARY]

theorem split_on_conflict_track {σ : Type} (limit : Nat) (targets : List Nat)
    (st : RecorderState σ) (h : phases_track_cycle st) :
    phases_track_cycle (split_on_conflict limit targets st)
      ∧ ∀ q ∈ targets, (split_on_conflict limit targets st).qubit_phases q ≤ limit := by
  rcases split_on_conflict_cases limit targets st with ⟨h1, h2⟩ | ⟨h1, _⟩
  · rw [h1]
    exact ⟨h, h2⟩
  · rw [h1]
    refine ⟨phases_track_start st, ?_⟩
    intro q _
    simp [start_next_moment]

theorem has_content_of_marked {σ : Type} (st : RecorderState σ) (h : phases_track_cycle st)
    (q : Nat) (hq : PHASE_UNITARY < st.qubit_phases q) :
    st.partial_cycle.has_content = true := by
  rcases (h.2 q).mpr hq with h3 | h4
  · have : st.partial_cycle.step3_measure ≠ [] := by
      intro he
      simp [PauliFrameSimCycle.measured_qubits, he] at h3
    have hl : st.partial_cycle.step3_measure.length ≠ 0 := by
      simpa [List.length_eq_zero] using this
    simp [PauliFrameSimCycle.has_content, hl]
  · have : st.partial_cycle.step4_reset ≠ [] := by
      intro he
      simp [he] at h4
    have hl : st.partial_cycle.step4_reset.length ≠ 0 := by
      simpa [List.length_eq_zero] using this
    simp [PauliFrameSimCycle.has_content, hl]

theorem split_on_conflict_content {σ : Type} (limit : Nat) (targets : List Nat)
    (st : RecorderState σ) (h : phases_track_cycle st) (hc : pushed_have_content st) :
    pushed_have_content (split_on_conflict limit targets st) := by
  rcases split_on_conflict_cases limit targets st with ⟨h1, _⟩ | ⟨h1, q, _, hq⟩
  · rw [h1]
    exact hc
  · rw [h1]
    intro c hmem
    simp only [start_next_moment, List.mem_append, List.mem_singleton] at hmem
    rcases hmem with hmem | rfl
    · exact hc c hmem
    · exact has_content_of_marked st h q (by unfold PHASE_UNITARY; omega)

theorem measure_reports_qubits (targets : List Nat) (rs : List SparsePauliString) :
    (measure_reports targets rs).map (fun m => m.target_qubit) = targets.take rs.length := by
  induction targets generalizing rs with
  | nil => simp [measure_reports]
  | cons q qs ih =>
    cases rs with
    | nil => simp [measure_reports]
    | cons r rs =>
      have := ih rs
      simp only [measure_reports] at this
      simp [measure_reports, this]

theorem measure_reports_signs (targets : List Nat) (rs : List SparsePauliString) :
    (measure_reports targets rs).map (fun m => m.invert)
      = (rs.take targets.length).map (fun r => r.sign) := by
  induction targets generalizing rs with
  | nil => simp [measure_reports]
  | cons q qs ih =>
    cases rs with
    | nil => simp [measure_reports]
    | cons r rs =>
      have := ih rs
      simp only [measure_reports] at this
      simp [measure_reports, this]

theorem measure_result_track {σ : Type} (targets : List Nat) (rs : List SparsePauliString)
    (st : RecorderState σ) (h : phases_track_cycle st)
    (hle : ∀ q ∈ targets, st.qubit_phases q ≤ PHASE_COLLAPSED) :
    phases_track_cycle (measure_loop_result targets rs 0 st) := by
  have hsub : ∀ q, q ∈ targets.take rs.length → q ∈ targets :=
    fun q hq => List.mem_of_mem_take hq
  constructor
  · intro q
    simp only [measure_loop_result, List.drop_zero]
    by_cases hq : q ∈ targets.take rs.length
    · simp only [hq, if_true, lt_irrefl, iff_false]
      intro h4
      have := (h.1 q).mp h4
      have := hle q (hsub q hq)
      omega
    · simp only [hq, if_false]
      exact h.1 q
  · intro q
    simp only [measure_loop_result, List.drop_zero, PauliFrameSimCycle.measured_qubits,
      List.map_append, measure_reports_qubits, List.mem_append]
    by_cases hq : q ∈ targets.take rs.length
    · simp [hq, PHASE_COLLAPSED, PHASE_UNITARY]
    · simp only [hq, if_false, or_false]
      exact h.2 q

theorem reset_result_track {σ : Type} (targets : List Nat) (rs : List SparsePauliString)
    (st : RecorderState σ) (h : phases_track_cycle st) :
    phases_track_cycle (reset_loop_result targets rs 0 st) := by
  constructor
  · intro q
    simp only [reset_loop_result, List.drop_zero, List.mem_append]
    by_cases hq : q ∈ targets.take rs.length
    · simp [hq, PHASE_COLLAPSED, PHASE_RESET]
    · simp only [hq, if_false, or_false]
      exact h.1 q
  · intro q
    simp only [reset_loop_result, List.drop_zero, PauliFrameSimCycle.measured_qubits,
      List.mem_append]
    by_cases hq : q ∈ targets.take rs.length
    · simp [hq, PHASE_RESET, PHASE_UNITARY]
    · simp only [hq, if_false, or_false]
      exact h.2 q

/-- One iteration of the recorder keeps the phase markers in step with the
partial cycle and pushes only cycles with content. -/
theorem record_op_invariant {σ : Type} (S : ChpSim σ) (st st' : RecorderState σ)
    (op : Operation) (h : phases_track_cycle st) (hc : pushed_have_content st)
    (hstep : record_op S st op = some st') :
    phases_track_cycle st' ∧ pushed_have_content st' := by
  rcases operation_cases op with hp | ht | hm | hr | hg
  · rw [record_op_pauli S st op hp] at hstep
    cases hstep
    exact ⟨h, hc⟩
  · rw [record_op_tick S st op ht] at hstep
    cases hstep
    exact ⟨h, hc⟩
  · rw [record_op_measure S st op hm, measure_loop_zero_iff] at hstep
    obtain ⟨_, rfl⟩ := hstep
    obtain ⟨hs1, hs2⟩ := split_on_conflict_track PHASE_COLLAPSED op.targets st h
    have hs3 := split_on_conflict_content PHASE_COLLAPSED op.targets st h hc
    exact ⟨measure_result_track op.targets _ _ hs1 hs2, hs3⟩
  · rw [record_op_reset S st op hr] at hstep
    rcases hloop : reset_loop op.targets (S.inspected_collapse st.sim op.targets).1 0
      { st with sim := (S.inspected_collapse st.sim op.targets).2 } with _ | st2
    · rw [hloop] at hstep
      cases hstep
    · rw [hloop] at hstep
      cases hstep
      obtain ⟨_, rfl⟩ := (reset_loop_zero_iff _ _ _ _).mp hloop
      exact ⟨reset_result_track op.targets _ _ h, hc⟩
  · rw [record_op_gate S st op hg] at hstep
    cases hstep
    obtain ⟨hs1, _⟩ := split_on_conflict_track PHASE_UNITARY op.targets st h
    have hs3 := split_on_conflict_content PHASE_UNITARY op.targets st h hc
    exact ⟨hs1, hs3⟩

theorem record_ops_invariant {σ : Type} (S : ChpSim σ) (ops : List Operation) :
    ∀ (st st' : RecorderState σ), phases_track_cycle st → pushed_have_content st →
      record_ops S ops st = some st' → phases_track_cycle st' ∧ pushed_have_content st' := by
  induction ops with
  | nil =>
    intro st st' h hc hrun
    simp only [record_ops, Option.some.injEq] at hrun
    subst hrun
    exact ⟨h, hc⟩
  | cons op ops ih =>
    intro st st' h hc hrun
    simp only [record_ops] at hrun
    rcases hstep : record_op S st op with _ | st1
    · rw [hstep] at hrun
      cases hrun
    · rw [hstep] at hrun
      obtain ⟨h1, hc1⟩ := record_op_invariant S st st1 op h hc hstep
      exact ih st1 st' h1 hc1 hrun

theorem recorder_init_invariant {σ : Type} (S : ChpSim σ) (n : Nat) :
    phases_track_cycle (recorder_init S n) ∧ pushed_have_content (recorder_init S n) := by
  refine ⟨⟨?_, ?_⟩, ?_⟩
  · intro q
    simp [recorder_init, PHASE_COLLAPSED]
  · intro q
    simp [recorder_init, PauliFrameSimCycle.measured_qubits, PHASE_UNITARY]
  · intro c hmem
    simp [recorder_init] at hmem

/-! ## The recorder returns a program -/

theorem record_op_defined {σ : Type} (S : ChpSim σ) (hS : collapse_within_targets S)
    (st : RecorderState σ) (op : Operation) : ∃ st', record_op S st op = some st' := by
  rcases operation_cases op with hp | ht | hm | hr | hg
  · exact ⟨_, record_op_pauli S st op hp⟩
  · exact ⟨_, record_op_tick S st op ht⟩
  · rw [record_op_measure S st op hm]
    exact ⟨_, measure_loop_eq op.targets _ 0 _ (hS _ _)⟩
  · rw [record_op_reset S st op hr, reset_loop_eq op.targets _ 0 _ (hS _ _)]
    exact ⟨_, rfl⟩
  · exact ⟨_, record_op_gate S st op hg⟩

theorem record_ops_defined {σ : Type} (S : ChpSim σ) (hS : collapse_within_targets S)
    (ops : List Operation) : ∀ st : RecorderState σ, ∃ st', record_ops S ops st = some st' := by
  induction ops with
  | nil => intro st; exact ⟨st, rfl⟩
  | cons op ops ih =>
    intro st
    obtain ⟨st1, h1⟩ := record_op_defined S hS st op
    obtain ⟨st2, h2⟩ := ih st1
    exact ⟨st2, by simp [record_ops, h1, h2]⟩

theorem recorded_unfold {σ : Type} (S : ChpSim σ) (ops : List Operation) :
    PauliFrameSimulation.recorded_from_tableau_sim S ops
      = (record_ops S ops (recorder_init S (prescan ops).num_qubits)).map
          (fun st =>
            { num_qubits := (prescan ops).num_qubits
              num_measurements := (prescan ops).num_measurements
              cycles := flush st }) := rfl

theorem recorded_defined {σ : Type} (S : ChpSim σ) (hS : collapse_within_targets S)
    (ops : List Operation) :
    ∃ prog, PauliFrameSimulation.recorded_from_tableau_sim S ops = some prog := by
  obtain ⟨st, hst⟩ := record_ops_defined S hS ops (recorder_init S (prescan ops).num_qubits)
  rw [recorded_unfold, hst]
  exact ⟨_, rfl⟩

theorem recorded_eq_some {σ : Type} (S : ChpSim σ) (ops : List Operation)
    (prog : PauliFrameSimulation)
    (h : PauliFrameSimulation.recorded_from_tableau_sim S ops = some prog) :
    ∃ st, record_ops S ops (recorder_init S (prescan ops).num_qubits) = some st
      ∧ prog.num_qubits = (prescan ops).num_qubits
      ∧ prog.num_measurements = (prescan ops).num_measurements
      ∧ prog.cycles = flush st := by
  rw [recorded_unfold] at h
  rcases hrun : record_ops S ops (recorder_init S (prescan ops).num_qubits) with _ | st
  · rw [hrun] at h
    cases h
  · rw [hrun] at h
    cases h
    exact ⟨st, rfl, rfl, rfl, rfl⟩

theorem scripted_one_per_target (script : List (List SparsePauliString)) :
    collapse_one_per_target (scriptedSim script) := by
  intro s targets
  simp [scriptedSim]

theorem within_targets_of_one_per_target {σ : Type} (S : ChpSim σ)
    (h : collapse_one_per_target S) : collapse_within_targets S :=
  fun s targets => le_of_eq (h s targets)

theorem has_content_iff (c : PauliFrameSimCycle) :
    c.has_content = true
      ↔ ¬ (c.step1_unitary = [] ∧ c.step2_collapse = [] ∧ c.step3_measure = []
            ∧ c.step4_reset = []) := by
  simp only [PauliFrameSimCycle.has_content, Bool.or_eq_true, bne_iff_ne, ne_eq,
    List.length_eq_zero]
  tauto

/-! ## What one iteration adds to the recorded history -/

theorem all_unitary_history {σ : Type} (st : RecorderState σ) :
    all_unitary st.history = all_unitary st.cycles ++ st.partial_cycle.step1_unitary := by
  simp [all_unitary, RecorderState.history]

theorem all_collapse_history {σ : Type} (st : RecorderState σ) :
    all_collapse st.history = all_collapse st.cycles ++ st.partial_cycle.step2_collapse := by
  simp [all_collapse, RecorderState.history]

theorem all_measure_history {σ : Type} (st : RecorderState σ) :
    all_measure st.history = all_measure st.cycles ++ st.partial_cycle.step3_measure := by
  simp [all_measure, RecorderState.history]

theorem split_on_conflict_history {σ : Type} (limit : Nat) (targets : List Nat)
    (st : RecorderState σ) :
    all_unitary (split_on_conflict limit targets st).history = all_unitary st.history
      ∧ all_collapse (split_on_conflict limit targets st).history = all_collapse st.history
      ∧ all_measure (split_on_conflict limit targets st).history = all_measure st.history
      ∧ (split_on_conflict limit targets st).sim = st.sim := by
  rcases split_on_conflict_cases limit targets st with ⟨h1, _⟩ | ⟨h1, _⟩
  · rw [h1]
    exact ⟨rfl, rfl, rfl, rfl⟩
  · rw [h1]
    simp [start_next_moment, RecorderState.history, all_unitary, all_collapse, all_measure]

theorem flush_history {σ : Type} (st : RecorderState σ) :
    all_unitary (flush st) = all_unitary st.history
      ∧ all_collapse (flush st) = all_collapse st.history
      ∧ all_measure (flush st) = all_measure st.history := by
  unfold flush
  by_cases hpc : st.partial_cycle.has_content = true
  · rw [if_pos hpc]
    exact ⟨rfl, rfl, rfl⟩
  · rw [if_neg hpc]
    have hempty : st.partial_cycle.step1_unitary = [] ∧ st.partial_cycle.step2_collapse = []
        ∧ st.partial_cycle.step3_measure = [] ∧ st.partial_cycle.step4_reset = [] := by
      by_contra hne
      exact hpc ((has_content_iff st.partial_cycle).mpr hne)
    obtain ⟨e1, e2, e3, _⟩ := hempty
    simp [RecorderState.history, all_unitary, all_collapse, all_measure, e1, e2, e3]

theorem collapse_events_eq_trace_events (from_measure : Bool) (targets : List Nat)
    (rs : List SparsePauliString) (h : rs.length ≤ targets.length) :
    collapse_events rs
      = spec_trace_events
          (List.zipWith (fun q r => (⟨from_measure, q, r⟩ : CollapseRecord)) targets rs) := by
  induction rs generalizing targets with
  | nil => simp [collapse_events, spec_trace_events]
  | cons r rs ih =>
    cases targets with
    | nil => simp at h
    | cons q qs =>
      have hle : rs.length ≤ qs.length := by simpa using h
      have := ih qs hle
      rw [collapse_events_cons, this]
      by_cases hr : r.indexed_words.isEmpty <;>
        simp [spec_trace_events, List.filter_cons, hr]

theorem measure_reports_eq_trace_reports (targets : List Nat) (rs : List SparsePauliString) :
    measure_reports targets rs
      = spec_trace_reports
          (List.zipWith (fun q r => (⟨true, q, r⟩ : CollapseRecord)) targets rs) := by
  induction rs generalizing targets with
  | nil => simp [measure_reports, spec_trace_reports]
  | cons r rs ih =>
    cases targets with
    | nil => simp [measure_reports, spec_trace_reports]
    | cons q qs =>
      have := ih qs
      simp only [measure_reports, spec_trace_reports] at this ⊢
      simp [List.filter_cons, this]

theorem reset_trace_reports (targets : List Nat) (rs : List SparsePauliString) :
    spec_trace_reports
      (List.zipWith (fun q r => (⟨false, q, r⟩ : CollapseRecord)) targets rs) = [] := by
  induction rs generalizing targets with
  | nil => simp [spec_trace_reports]
  | cons r rs ih =>
    cases targets with
    | nil => simp [spec_trace_reports]
    | cons q qs =>
      have := ih qs
      simp only [spec_trace_reports] at this ⊢
      simp [List.filter_cons, this]

/-- What one iteration of the recorder does to the simulator and to the three
recorded sequences. -/
theorem record_op_history {σ : Type} (S : ChpSim σ) (st st' : RecorderState σ)
    (op : Operation) (hstep : record_op S st op = some st') :
    st'.sim = spec_sim_after S st.sim op
      ∧ all_unitary st'.history
          = all_unitary st.history ++ (if op.is_recorded_gate then [op] else [])
      ∧ all_collapse st'.history
          = all_collapse st.history ++ spec_trace_events (spec_collapses_of S st.sim op)
      ∧ all_measure st'.history
          = all_measure st.history ++ spec_trace_reports (spec_collapses_of S st.sim op) := by
  rcases operation_cases op with hp | ht | hm | hr | hg
  · rw [record_op_pauli S st op hp] at hstep
    cases hstep
    have h1 : op.name ≠ "TICK" := by rcases hp with h | h | h <;> rw [h] <;> decide
    have h2 : op.name ≠ "M" := by rcases hp with h | h | h <;> rw [h] <;> decide
    have h3 : op.name ≠ "R" := by rcases hp with h | h | h <;> rw [h] <;> decide
    simp [spec_sim_after, spec_collapses_of, h1, h2, h3, not_recorded_gate_of_pauli op hp,
      spec_trace_events, spec_trace_reports, RecorderState.history]
  · rw [record_op_tick S st op ht] at hstep
    cases hstep
    simp [spec_sim_after, spec_collapses_of, ht, not_recorded_gate_of_tick op ht,
      spec_trace_events, spec_trace_reports]
  · rw [record_op_measure S st op hm, measure_loop_zero_iff] at hstep
    obtain ⟨hlen, rfl⟩ := hstep
    obtain ⟨e1, e2, e3, e4⟩ := split_on_conflict_history PHASE_COLLAPSED op.targets st
    rw [e4] at hlen
    have hT : op.name ≠ "TICK" := by rw [hm]; decide
    simp only [all_unitary_history, all_collapse_history, all_measure_history] at e1 e2 e3 ⊢
    simp only [measure_loop_result, List.drop_zero, e4, spec_sim_after, spec_collapses_of,
      hm, if_true, not_recorded_gate_of_measure op hm, List.append_nil, ← List.append_assoc,
      e1, e2, e3, ← collapse_events_eq_trace_events true op.targets _ hlen,
      ← measure_reports_eq_trace_reports]
    simp
  · rw [record_op_reset S st op hr] at hstep
    rcases hloop : reset_loop op.targets (S.inspected_collapse st.sim op.targets).1 0
      { st with sim := (S.inspected_collapse st.sim op.targets).2 } with _ | st2
    · rw [hloop] at hstep
      cases hstep
    · rw [hloop] at hstep
      cases hstep
      obtain ⟨hlen, rfl⟩ := (reset_loop_zero_iff _ _ _ _).mp hloop
      have hT : op.name ≠ "TICK" := by rw [hr]; decide
      have hM : op.name ≠ "M" := by rw [hr]; decide
      simp only [all_unitary_history, all_collapse_history, all_measure_history]
      simp only [reset_loop_result, List.drop_zero, spec_sim_after, spec_collapses_of,
        hT, hM, hr, if_true, if_false, not_recorded_gate_of_reset op hr, List.append_nil,
        ← List.append_assoc]
      simp only [List.append_assoc, List.append_cancel_left_eq, true_and, List.self_eq_append_right]
      refine ⟨by simp, by simp, collapse_events_eq_trace_events false op.targets _ hlen,
        reset_trace_reports _ _⟩
  · rw [record_op_gate S st op hg] at hstep
    cases hstep
    obtain ⟨h1, h2, h3, h4⟩ := (is_recorded_gate_iff op).mp hg
    obtain ⟨e1, e2, e3, e4⟩ := split_on_conflict_history PHASE_UNITARY op.targets st
    simp only [all_unitary_history, all_collapse_history, all_measure_history] at e1 e2 e3 ⊢
    simp only [e4, spec_sim_after, spec_collapses_of, h2, h3, h4, if_false, hg, if_true,
      ← List.append_assoc, e1, e2, e3, spec_trace_events, spec_trace_reports]
    simp

/-- What the whole loop does to the simulator-independent reading of the
recorded sequences. -/
theorem record_ops_history {σ : Type} (S : ChpSim σ) (ops : List Operation) :
    ∀ (st st' : RecorderState σ), record_ops S ops st = some st' →
      all_unitary st'.history = all_unitary st.history ++ spec_recorded_gates ops
        ∧ all_collapse st'.history
            = all_collapse st.history ++ spec_trace_events (spec_collapse_trace S ops st.sim)
        ∧ all_measure st'.history
            = all_measure st.history ++ spec_trace_reports (spec_collapse_trace S ops st.sim) := by
  induction ops with
  | nil =>
    intro st st' hrun
    simp only [record_ops, Option.some.injEq] at hrun
    subst hrun
    simp [spec_recorded_gates, spec_collapse_trace, spec_trace_events, spec_trace_reports]
  | cons op ops ih =>
    intro st st' hrun
    simp only [record_ops] at hrun
    rcases hstep : record_op S st op with _ | st1
    · rw [hstep] at hrun
      cases hrun
    · rw [hstep] at hrun
      obtain ⟨hs, h1, h2, h3⟩ := record_op_history S st st1 op hstep
      obtain ⟨g1, g2, g3⟩ := ih st1 st' hrun
      rw [g1, g2, g3, h1, h2, h3, hs]
      refine ⟨?_, ?_, ?_⟩
      · by_cases hg : op.is_recorded_gate = true
        · simp [spec_recorded_gates, List.filter_cons, hg]
        · simp [spec_recorded_gates, List.filter_cons, hg]
      · simp [spec_collapse_trace, spec_trace_events, List.filter_append]
      · simp [spec_collapse_trace, spec_trace_reports, List.filter_append]

/-! ## The first loop -/

theorem prescan_targets_fold (targets : List Nat) :
    ∀ rs : PauliFrameSimulation,
      (targets.foldl
          (fun r q => { r with num_qubits := max r.num_qubits ((q + 1) % SIZE_MOD) }) rs)
        = { rs with
            num_qubits := targets.foldl (fun n q => max n ((q + 1) % SIZE_MOD)) rs.num_qubits } := by
  induction targets with
  | nil => intro rs; rfl
  | cons q qs ih =>
    intro rs
    simp only [List.foldl_cons]
    rw [ih]

theorem prescan_op_num_qubits (rs : PauliFrameSimulation) (op : Operation) :
    (prescan_op rs op).num_qubits
      = op.targets.foldl (fun n q => max n ((q + 1) % SIZE_MOD)) rs.num_qubits := by
  unfold prescan_op
  simp only [prescan_targets_fold]
  by_cases h : op.name = "M" <;> simp [h]

theorem prescan_op_num_measurements (rs : PauliFrameSimulation) (op : Operation) :
    (prescan_op rs op).num_measurements
      = if op.name = "M" then (rs.num_measurements + op.targets.length) % SIZE_MOD
        else rs.num_measurements := by
  unfold prescan_op
  simp only [prescan_targets_fold]
  by_cases h : op.name = "M" <;> simp [h]

theorem prescan_fold_num_qubits (ops : List Operation) :
    ∀ rs : PauliFrameSimulation,
      (ops.foldl prescan_op rs).num_qubits
        = (spec_all_targets ops).foldl (fun n q => max n ((q + 1) % SIZE_MOD)) rs.num_qubits := by
  induction ops with
  | nil => intro rs; rfl
  | cons op ops ih =>
    intro rs
    simp only [List.foldl_cons, spec_all_targets, List.flatMap_cons, List.foldl_append]
    rw [ih, prescan_op_num_qubits]
    rfl

theorem prescan_fold_num_measurements (ops : List Operation) :
    ∀ rs : PauliFrameSimulation, rs.num_measurements < SIZE_MOD →
      (ops.foldl prescan_op rs).num_measurements
        = (rs.num_measurements + spec_num_measurements ops) % SIZE_MOD := by
  induction ops with
  | nil =>
    intro rs h
    simp [spec_num_measurements, Nat.mod_eq_of_lt h]
  | cons op ops ih =>
    intro rs h
    simp only [List.foldl_cons]
    have hpos : 0 < SIZE_MOD := by unfold SIZE_MOD; positivity
    by_cases hm : op.name = "M"
    · rw [ih _ (by rw [prescan_op_num_measurements, if_pos hm]; exact Nat.mod_lt _ hpos)]
      rw [prescan_op_num_measurements, if_pos hm]
      simp only [spec_num_measurements, List.filter_cons, hm, decide_True, if_true,
        List.map_cons, List.sum_cons]
      rw [Nat.mod_add_mod, Nat.add_assoc]
    · rw [ih _ (by rw [prescan_op_num_measurements, if_neg hm]; exact h)]
      rw [prescan_op_num_measurements, if_neg hm]
      simp [spec_num_measurements, List.filter_cons, hm]

theorem foldl_max_start (targets : List Nat) :
    ∀ a : Nat, targets.foldl max a = max a (targets.foldl max 0) := by
  induction targets with
  | nil => intro a; simp
  | cons q qs ih =>
    intro a
    simp only [List.foldl_cons]
    rw [ih (max a q), ih (max 0 q)]
    simp [max_assoc]

theorem foldl_succ_max (targets : List Nat) :
    ∀ a : Nat, targets.foldl (fun n q => max n (q + 1)) a
      = max a (if targets = [] then 0 else targets.foldl max 0 + 1) := by
  induction targets with
  | nil => intro a; simp
  | cons q qs ih =>
    intro a
    simp only [List.foldl_cons, reduceCtorEq, if_false]
    rw [ih, foldl_max_start qs (max 0 q)]
    by_cases hqs : qs = []
    · simp [hqs]
    · simp only [hqs, if_false]
      omega

theorem foldl_wrapped_succ_max (targets : List Nat) (h : ∀ q ∈ targets, q < SIZE_MAX) :
    ∀ a : Nat, targets.foldl (fun n q => max n ((q + 1) % SIZE_MOD)) a
      = targets.foldl (fun n q => max n (q + 1)) a := by
  induction targets with
  | nil => intro a; rfl
  | cons q qs ih =>
    intro a
    have hq : q < SIZE_MAX := h q (List.mem_cons_self q qs)
    have hmod : (q + 1) % SIZE_MOD = q + 1 := by
      apply Nat.mod_eq_of_lt
      unfold SIZE_MAX at hq
      unfold SIZE_MOD
      omega
    simp only [List.foldl_cons, hmod]
    exact ih (fun x hx => h x (List.mem_cons_of_mem q hx)) _

theorem prescan_num_qubits (ops : List Operation)
    (h : ∀ op ∈ ops, ∀ q ∈ op.targets, q < SIZE_MAX) :
    (prescan ops).num_qubits = spec_num_qubits ops := by
  unfold prescan
  rw [prescan_fold_num_qubits, foldl_wrapped_succ_max, foldl_succ_max]
  · simp [spec_num_qubits]
  · intro q hq
    obtain ⟨op, hop, hmem⟩ := List.mem_flatMap.mp hq
    exact h op hop q hmem

theorem prescan_num_measurements (ops : List Operation)
    (h : spec_num_measurements ops < SIZE_MOD) :
    (prescan ops).num_measurements = spec_num_measurements ops := by
  unfold prescan
  rw [prescan_fold_num_measurements ops {} (by unfold SIZE_MOD; simp)]
  simp [Nat.mod_eq_of_lt h]

theorem spec_measured_targets_length (ops : List Operation) :
    (spec_measured_targets ops).length = spec_num_measurements ops := by
  simp only [spec_measured_targets, spec_num_measurements, List.length_flatMap]
  rfl

/-! ## The recorded program against the reference reading -/

theorem recorded_reading {σ : Type} (S : ChpSim σ) (ops : List Operation)
    (prog : PauliFrameSimulation)
    (h : PauliFrameSimulation.recorded_from_tableau_sim S ops = some prog) :
    all_unitary prog.cycles = spec_recorded_gates ops
      ∧ all_collapse prog.cycles
          = spec_trace_events (spec_collapse_trace S ops (S.init prog.num_qubits))
      ∧ all_measure prog.cycles
          = spec_trace_reports (spec_collapse_trace S ops (S.init prog.num_qubits)) := by
  obtain ⟨st, hrun, hq, _, hcycles⟩ := recorded_eq_some S ops prog h
  obtain ⟨g1, g2, g3⟩ := record_ops_history S ops _ st hrun
  obtain ⟨f1, f2, f3⟩ := flush_history st
  rw [hcycles, f1, f2, f3, g1, g2, g3, hq]
  simp [recorder_init, RecorderState.history, all_unitary, all_collapse, all_measure]

theorem spec_trace_reports_append (a b : List CollapseRecord) :
    spec_trace_reports (a ++ b) = spec_trace_reports a ++ spec_trace_reports b := by
  simp [spec_trace_reports, List.filter_append]

theorem spec_collapses_reports_qubits {σ : Type} (S : ChpSim σ)
    (hS : collapse_one_per_target S) (s : σ) (op : Operation) :
    (spec_trace_reports (spec_collapses_of S s op)).map (fun m => m.target_qubit)
      = if op.name = "M" then op.targets else [] := by
  unfold spec_collapses_of
  by_cases hm : op.name = "M"
  · rw [if_pos hm, if_pos hm, ← measure_reports_eq_trace_reports, measure_reports_qubits, hS]
    exact List.take_length _
  · rw [if_neg hm, if_neg hm]
    by_cases hr : op.name = "R"
    · rw [if_pos hr, reset_trace_reports]
      rfl
    · rw [if_neg hr]
      rfl

theorem spec_trace_reports_qubits {σ : Type} (S : ChpSim σ) (hS : collapse_one_per_target S)
    (ops : List Operation) :
    ∀ s : σ, (spec_trace_reports (spec_collapse_trace S ops s)).map (fun m => m.target_qubit)
      = spec_measured_targets ops := by
  induction ops with
  | nil => intro s; rfl
  | cons op ops ih =>
    intro s
    simp only [spec_collapse_trace, spec_trace_reports_append, List.map_append, ih,
      spec_collapses_reports_qubits S hS]
    by_cases hm : op.name = "M"
    · simp [spec_measured_targets, List.filter_cons, hm]
    · simp [spec_measured_targets, List.filter_cons, hm]

theorem is_recorded_gate_eq (op : Operation) :
    op.is_recorded_gate = decide (op.name ∉ ["X", "Y", "Z", "TICK", "M", "R"]) := by
  unfold Operation.is_recorded_gate
  congr 1
  simp only [List.mem_cons, List.mem_singleton, List.not_mem_nil, or_false, not_or, ne_eq,
    eq_iff_iff]
  tauto

/-! ## Claims on the recorder -/

/-- C1 (cycle causality). At every point of every run of the recorder, whatever
the simulator does: when the next operation is a gate, it is appended to
`step1_unitary` of a current cycle whose `step3_measure` and `step4_reset`
hold none of its targets; when it is an `M`, its reports are appended to
`step3_measure` of a current cycle whose `step4_reset` holds none of its
targets. So within a cycle no recorded unitary follows a measurement or reset
of one of its qubits, and no report follows a reset of its qubit. -/
theorem cycle_causality {σ : Type} (S : ChpSim σ) (before after : List Operation)
    (op : Operation) (st : RecorderState σ)
    (hst : record_ops S before (recorder_init S (prescan (before ++ op :: after)).num_qubits)
      = some st) :
    (op.is_recorded_gate = true →
      ∃ st', record_op S st op = some st'
        ∧ st'.partial_cycle.step1_unitary
            = (split_on_conflict PHASE_UNITARY op.targets st).partial_cycle.step1_unitary ++ [op]
        ∧ st'.partial_cycle.step3_measure
            = (split_on_conflict PHASE_UNITARY op.targets st).partial_cycle.step3_measure
        ∧ st'.partial_cycle.step4_reset
            = (split_on_conflict PHASE_UNITARY op.targets st).partial_cycle.step4_reset
        ∧ ∀ q ∈ op.targets,
            q ∉ st'.partial_cycle.measured_qubits ∧ q ∉ st'.partial_cycle.step4_reset)
    ∧ (op.name = "M" →
      ∀ st', record_op S st op = some st' →
        ∃ reports,
          st'.partial_cycle.step3_measure
            = (split_on_conflict PHASE_COLLAPSED op.targets st).partial_cycle.step3_measure
                ++ reports
          ∧ (∀ m ∈ reports, m.target_qubit ∈ op.targets)
          ∧ st'.partial_cycle.step4_reset
            = (split_on_conflict PHASE_COLLAPSED op.targets st).partial_cycle.step4_reset
          ∧ ∀ q ∈ op.targets, q ∉ st'.partial_cycle.step4_reset) := by
  obtain ⟨h0, hc0⟩ := recorder_init_invariant S (prescan (before ++ op :: after)).num_qubits
  obtain ⟨hinv, _⟩ := record_ops_invariant S before _ st h0 hc0 hst
  constructor
  · intro hg
    obtain ⟨hs1, hs2⟩ := split_on_conflict_track PHASE_UNITARY op.targets st hinv
    refine ⟨_, record_op_gate S st op hg, rfl, rfl, rfl, ?_⟩
    intro q hq
    have hle := hs2 q hq
    have hiff := hs1.2 q
    simp only [PauliFrameSimCycle.measured_qubits] at hiff ⊢
    constructor
    · intro hmem
      have := hiff.mp (Or.inl hmem)
      omega
    · intro hmem
      have := hiff.mp (Or.inr hmem)
      omega
  · intro hm st' hstep
    rw [record_op_measure S st op hm, measure_loop_zero_iff] at hstep
    obtain ⟨_, rfl⟩ := hstep
    obtain ⟨hs1, hs2⟩ := split_on_conflict_track PHASE_COLLAPSED op.targets st hinv
    refine ⟨measure_reports op.targets _, rfl, ?_, rfl, ?_⟩
    · intro m hmem
      have h1 : m.target_qubit ∈ (measure_reports op.targets
          (S.inspected_collapse (split_on_conflict PHASE_COLLAPSED op.targets st).sim
            op.targets).1).map (fun m => m.target_qubit) :=
        List.mem_map_of_mem _ hmem
      rw [measure_reports_qubits] at h1
      exact List.mem_of_mem_take h1
    · intro q hq hmem
      have hle := hs2 q hq
      have := (hs1.1 q).mp hmem
      omega

/-- C1, at two points of concrete runs: `H 0` arriving after `M 0`, and `M 0`
arriving after `R 0`, each opening a new cycle. -/
theorem cycle_causality_witness :
    (record_ops (scriptedSim []) [⟨"M", [0]⟩]
        (recorder_init (scriptedSim []) (prescan ([⟨"M", [0]⟩] ++ ⟨"H", [0]⟩ :: [])).num_qubits)
      = some { cycles := [], partial_cycle := { step3_measure := [⟨0, false⟩] },
               qubit_phases := set_phase (fun _ => 0) 0 PHASE_COLLAPSED, sim := [] }
      ∧ (⟨"H", [0]⟩ : Operation).is_recorded_gate = true
      ∧ ∃ st', record_op (scriptedSim [])
            { cycles := [], partial_cycle := { step3_measure := [⟨0, false⟩] },
              qubit_phases := set_phase (fun _ => 0) 0 PHASE_COLLAPSED, sim := [] }
            ⟨"H", [0]⟩ = some st'
          ∧ st'.partial_cycle.step1_unitary = [] ++ [⟨"H", [0]⟩]
          ∧ st'.partial_cycle.step3_measure = []
          ∧ st'.partial_cycle.step4_reset = []
          ∧ ∀ q ∈ [0], q ∉ st'.partial_cycle.measured_qubits ∧ q ∉ st'.partial_cycle.step4_reset)
    ∧ (record_ops (scriptedSim []) [⟨"R", [0]⟩]
        (recorder_init (scriptedSim []) (prescan ([⟨"R", [0]⟩] ++ ⟨"M", [0]⟩ :: [])).num_qubits)
      = some { cycles := [], partial_cycle := { step4_reset := [0] },
               qubit_phases := set_phase (fun _ => 0) 0 PHASE_RESET, sim := [] }
      ∧ (⟨"M", [0]⟩ : Operation).name = "M"
      ∧ ∀ st', record_op (scriptedSim [])
            { cycles := [], partial_cycle := { step4_reset := [0] },
              qubit_phases := set_phase (fun _ => 0) 0 PHASE_RESET, sim := [] }
            ⟨"M", [0]⟩ = some st' →
          ∃ reports, st'.partial_cycle.step3_measure = [] ++ reports
            ∧ (∀ m ∈ reports, m.target_qubit ∈ [0])
            ∧ st'.partial_cycle.step4_reset = []
            ∧ ∀ q ∈ [0], q ∉ st'.partial_cycle.step4_reset) :=
  ⟨⟨rfl, by decide,
      (cycle_causality (scriptedSim []) [⟨"M", [0]⟩] [] ⟨"H", [0]⟩ _ rfl).1 (by decide)⟩,
    ⟨rfl, rfl, (cycle_causality (scriptedSim []) [⟨"R", [0]⟩] [] ⟨"M", [0]⟩ _ rfl).2 rfl⟩⟩

/-- C7. The recorder returns a program whenever the simulator gives at most one
result per target; no cycle of a returned program has all four phases empty;
and the empty stream gives the program with no cycle. -/
theorem no_empty_cycle {σ : Type} (S : ChpSim σ) (ops : List Operation) :
    (collapse_within_targets S →
        ∃ prog, PauliFrameSimulation.recorded_from_tableau_sim S ops = some prog)
    ∧ (∀ prog, PauliFrameSimulation.recorded_from_tableau_sim S ops = some prog →
        ∀ c ∈ prog.cycles,
          ¬ (c.step1_unitary = [] ∧ c.step2_collapse = [] ∧ c.step3_measure = []
              ∧ c.step4_reset = []))
    ∧ PauliFrameSimulation.recorded_from_tableau_sim S []
        = some { num_qubits := 0, num_measurements := 0, cycles := [] } := by
  refine ⟨fun hS => recorded_defined S hS ops, ?_, rfl⟩
  intro prog hprog c hc
  obtain ⟨st, hrun, _, _, hcycles⟩ := recorded_eq_some S ops prog hprog
  obtain ⟨h0, hc0⟩ := recorder_init_invariant S (prescan ops).num_qubits
  obtain ⟨_, hpushed⟩ := record_ops_invariant S ops _ st h0 hc0 hrun
  rw [← has_content_iff]
  rw [hcycles] at hc
  unfold flush at hc
  by_cases hpc : st.partial_cycle.has_content = true
  · rw [if_pos hpc] at hc
    rcases List.mem_append.mp hc with hmem | hmem
    · exact hpushed c hmem
    · rw [List.mem_singleton.mp hmem]
      exact hpc
  · rw [if_neg hpc] at hc
    exact hpushed c hc

/-- C7, on the stream `M 0; H 0`, which is recorded as two cycles. -/
theorem no_empty_cycle_witness :
    (collapse_within_targets (scriptedSim []) ∧
      ∃ prog, PauliFrameSimulation.recorded_from_tableau_sim (scriptedSim [])
        [⟨"M", [0]⟩, ⟨"H", [0]⟩] = some prog)
    ∧ PauliFrameSimulation.recorded_from_tableau_sim (scriptedSim [])
        [⟨"M", [0]⟩, ⟨"H", [0]⟩]
        = some { num_qubits := 1, num_measurements := 1,
                 cycles := [{ step3_measure := [⟨0, false⟩] }, { step1_unitary := [⟨"H", [0]⟩] }] }
    ∧ ∀ c ∈ [({ step3_measure := [⟨0, false⟩] } : PauliFrameSimCycle),
              { step1_unitary := [⟨"H", [0]⟩] }],
        ¬ (c.step1_unitary = [] ∧ c.step2_collapse = [] ∧ c.step3_measure = []
            ∧ c.step4_reset = []) :=
  ⟨⟨within_targets_of_one_per_target _ (scripted_one_per_target []),
      (no_empty_cycle (scriptedSim []) [⟨"M", [0]⟩, ⟨"H", [0]⟩]).1
        (within_targets_of_one_per_target _ (scripted_one_per_target []))⟩,
    rfl,
    (no_empty_cycle (scriptedSim []) [⟨"M", [0]⟩, ⟨"H", [0]⟩]).2.1 _ rfl⟩

/-- C4. The recorder returns a program whenever the simulator gives at most one
result per target, and the `step1_unitary` lists of a returned program, read
cycle by cycle, are the stream without its operations named `X`, `Y`, `Z`,
`TICK`, `M` or `R`, in the same order and with the same targets; so no
operation with one of these names is recorded in any cycle. -/
theorem recorded_unitaries {σ : Type} (S : ChpSim σ) (ops : List Operation) :
    (collapse_within_targets S →
        ∃ prog, PauliFrameSimulation.recorded_from_tableau_sim S ops = some prog)
    ∧ ∀ prog, PauliFrameSimulation.recorded_from_tableau_sim S ops = some prog →
        all_unitary prog.cycles
            = ops.filter (fun op => decide (op.name ∉ ["X", "Y", "Z", "TICK", "M", "R"]))
          ∧ ∀ c ∈ prog.cycles, ∀ op ∈ c.step1_unitary,
              op.name ≠ "X" ∧ op.name ≠ "Y" ∧ op.name ≠ "Z" ∧ op.name ≠ "TICK" := by
  refine ⟨fun hS => recorded_defined S hS ops, ?_⟩
  intro prog hprog
  obtain ⟨h1, _, _⟩ := recorded_reading S ops prog hprog
  have hfilter : all_unitary prog.cycles
      = ops.filter (fun op => decide (op.name ∉ ["X", "Y", "Z", "TICK", "M", "R"])) := by
    rw [h1, spec_recorded_gates]
    congr 1
    funext op
    exact is_recorded_gate_eq op
  refine ⟨hfilter, ?_⟩
  intro c hc op hop
  have hmem : op ∈ all_unitary prog.cycles := List.mem_flatMap.mpr ⟨c, hc, hop⟩
  rw [hfilter] at hmem
  have hnot := (List.mem_filter.mp hmem).2
  simp only [List.mem_cons, List.mem_singleton, List.not_mem_nil, or_false, not_or,
    decide_eq_true_eq] at hnot
  exact ⟨hnot.1, hnot.2.1, hnot.2.2.1, hnot.2.2.2.1⟩

/-- C4, on the stream `X 0; H 0; TICK; M 0; CX 0 1; R 1; Z 1`. -/
theorem recorded_unitaries_witness :
    PauliFrameSimulation.recorded_from_tableau_sim (scriptedSim [])
        [⟨"X", [0]⟩, ⟨"H", [0]⟩, ⟨"TICK", []⟩, ⟨"M", [0]⟩, ⟨"CX", [0, 1]⟩, ⟨"R", [1]⟩,
          ⟨"Z", [1]⟩]
      = some { num_qubits := 2, num_measurements := 1,
               cycles := [{ step1_unitary := [⟨"H", [0]⟩], step3_measure := [⟨0, false⟩] },
                          { step1_unitary := [⟨"CX", [0, 1]⟩], step4_reset := [1] }] }
    ∧ all_unitary [{ step1_unitary := [⟨"H", [0]⟩], step3_measure := [⟨0, false⟩] },
                   { step1_unitary := [⟨"CX", [0, 1]⟩], step4_reset := [1] }]
        = [⟨"H", [0]⟩, ⟨"CX", [0, 1]⟩] :=
  ⟨rfl,
    ((recorded_unitaries (scriptedSim [])
        [⟨"X", [0]⟩, ⟨"H", [0]⟩, ⟨"TICK", []⟩, ⟨"M", [0]⟩, ⟨"CX", [0, 1]⟩, ⟨"R", [1]⟩,
          ⟨"Z", [1]⟩]).2 _ rfl).1⟩

/-- C5. The recorder returns a program whenever the simulator gives at most one
result per target, and in a returned program the collapse events, read cycle by
cycle, are the collapse results the simulator returned for the targets of the
`M` and `R` operations that have a non-empty `indexed_words`, in stream order;
a result with an empty `indexed_words` gives no collapse event, while every
result of an `M` gives its report. -/
theorem recorded_collapse_events {σ : Type} (S : ChpSim σ) (ops : List Operation) :
    (collapse_within_targets S →
        ∃ prog, PauliFrameSimulation.recorded_from_tableau_sim S ops = some prog)
    ∧ ∀ prog, PauliFrameSimulation.recorded_from_tableau_sim S ops = some prog →
        all_collapse prog.cycles
            = ((spec_collapse_trace S ops (S.init prog.num_qubits)).filter
                (fun e => !e.result.indexed_words.isEmpty)).map (fun e => ⟨e.result⟩)
          ∧ all_measure prog.cycles
            = ((spec_collapse_trace S ops (S.init prog.num_qubits)).filter
                (fun e => e.from_measure)).map (fun e => ⟨e.qubit, e.result.sign⟩) := by
  refine ⟨fun hS => recorded_defined S hS ops, ?_⟩
  intro prog hprog
  obtain ⟨_, h2, h3⟩ := recorded_reading S ops prog hprog
  exact ⟨h2, h3⟩

/-- C5, on the stream `H 0; M 0 1; R 1` with a simulator whose collapse of
qubit 0 is random, of qubit 1 deterministic in the `M` and random in the `R`. -/
theorem recorded_collapse_events_witness :
    PauliFrameSimulation.recorded_from_tableau_sim
        (scriptedSim [[random_result true 0, deterministic_result true],
          [random_result false 1]])
        [⟨"H", [0]⟩, ⟨"M", [0, 1]⟩, ⟨"R", [1]⟩]
      = some { num_qubits := 2, num_measurements := 2,
               cycles := [{ step1_unitary := [⟨"H", [0]⟩],
                            step2_collapse := [⟨random_result true 0⟩, ⟨random_result false 1⟩],
                            step3_measure := [⟨0, true⟩, ⟨1, true⟩],
                            step4_reset := [1] }] }
    ∧ all_collapse [{ step1_unitary := [⟨"H", [0]⟩],
                      step2_collapse := [⟨random_result true 0⟩, ⟨random_result false 1⟩],
                      step3_measure := [⟨0, true⟩, ⟨1, true⟩],
                      step4_reset := [1] }]
        = ((spec_collapse_trace
              (scriptedSim [[random_result true 0, deterministic_result true],
                [random_result false 1]])
              [⟨"H", [0]⟩, ⟨"M", [0, 1]⟩, ⟨"R", [1]⟩]
              [[random_result true 0, deterministic_result true],
                [random_result false 1]]).filter
            (fun e => !e.result.indexed_words.isEmpty)).map (fun e => ⟨e.result⟩) :=
  ⟨rfl,
    ((recorded_collapse_events
        (scriptedSim [[random_result true 0, deterministic_result true],
          [random_result false 1]])
        [⟨"H", [0]⟩, ⟨"M", [0, 1]⟩, ⟨"R", [1]⟩]).2 _ rfl).1⟩

/-- C2. With a simulator that gives exactly one result per target, and a stream
whose `M` targets are fewer than the number of `size_t` values, the recorder
returns a program whose reports, read cycle by cycle, are as many as its
`num_measurements`, name the targets of the `M` operations in stream order, and
carry as invert flag the sign the simulator returned for that target. -/
theorem recorded_measurements {σ : Type} (S : ChpSim σ) (ops : List Operation)
    (hS : collapse_one_per_target S) (hsize : spec_num_measurements ops < SIZE_MOD) :
    ∃ prog, PauliFrameSimulation.recorded_from_tableau_sim S ops = some prog
      ∧ (all_measure prog.cycles).length = prog.num_measurements
      ∧ (all_measure prog.cycles).map (fun m => m.target_qubit) = spec_measured_targets ops
      ∧ all_measure prog.cycles
          = ((spec_collapse_trace S ops (S.init prog.num_qubits)).filter
              (fun e => e.from_measure)).map (fun e => ⟨e.qubit, e.result.sign⟩) := by
  obtain ⟨prog, hprog⟩ := recorded_defined S (within_targets_of_one_per_target S hS) ops
  obtain ⟨_, _, h3⟩ := recorded_reading S ops prog hprog
  obtain ⟨_, _, _, hm, _⟩ := recorded_eq_some S ops prog hprog
  have hq : (all_measure prog.cycles).map (fun m => m.target_qubit)
      = spec_measured_targets ops := by
    rw [h3]
    exact spec_trace_reports_qubits S hS ops _
  refine ⟨prog, hprog, ?_, hq, h3⟩
  have hlen := congrArg List.length hq
  rw [List.length_map, spec_measured_targets_length] at hlen
  rw [hlen, hm, prescan_num_measurements ops hsize]

/-- C2, on the stream `M 1 0; H 0; M 0`. -/
theorem recorded_measurements_witness :
    collapse_one_per_target (scriptedSim [[deterministic_result true], [random_result true 0]])
    ∧ spec_num_measurements [⟨"M", [1, 0]⟩, ⟨"H", [0]⟩, ⟨"M", [0]⟩] < SIZE_MOD
    ∧ ∃ prog, PauliFrameSimulation.recorded_from_tableau_sim
          (scriptedSim [[deterministic_result true], [random_result true 0]])
          [⟨"M", [1, 0]⟩, ⟨"H", [0]⟩, ⟨"M", [0]⟩] = some prog
        ∧ (all_measure prog.cycles).length = prog.num_measurements
        ∧ (all_measure prog.cycles).map (fun m => m.target_qubit)
            = spec_measured_targets [⟨"M", [1, 0]⟩, ⟨"H", [0]⟩, ⟨"M", [0]⟩]
        ∧ all_measure prog.cycles
            = ((spec_collapse_trace
                  (scriptedSim [[deterministic_result true], [random_result true 0]])
                  [⟨"M", [1, 0]⟩, ⟨"H", [0]⟩, ⟨"M", [0]⟩]
                  ((scriptedSim [[deterministic_result true], [random_result true 0]]).init
                    prog.num_qubits)).filter
                (fun e => e.from_measure)).map (fun e => ⟨e.qubit, e.result.sign⟩) :=
  ⟨scripted_one_per_target _, by decide,
    recorded_measurements _ _ (scripted_one_per_target _) (by decide)⟩

/-- C6 fails when a target is the largest `size_t`: for the stream
`H 18446744073709551615` the sum `q + 1` wraps to 0, and the recorder sets
`num_qubits` to 0, not to the largest target index plus one. -/
theorem num_qubits_wraps_at_size_max :
    PauliFrameSimulation.recorded_from_tableau_sim (scriptedSim [])
        [⟨"H", [18446744073709551615]⟩]
      = some { num_qubits := 0, num_measurements := 0,
               cycles := [{ step1_unitary := [⟨"H", [18446744073709551615]⟩] }] }
    ∧ spec_num_qubits [⟨"H", [18446744073709551615]⟩] = 18446744073709551616 :=
  ⟨by decide, by decide⟩

/-- C6, amended. For a stream whose target indices are all below the largest
`size_t` and whose `M` targets are fewer than the number of `size_t` values,
every program the recorder returns has `num_qubits` equal to the largest target
index plus one (0 when no operation has a target) and `num_measurements` equal
to the sum of the target-list lengths of the operations named `M`; and it
returns one whenever the simulator gives at most one result per target. -/
theorem recorded_header {σ : Type} (S : ChpSim σ) (ops : List Operation)
    (htargets : ∀ op ∈ ops, ∀ q ∈ op.targets, q < SIZE_MAX)
    (hsize : spec_num_measurements ops < SIZE_MOD) :
    (collapse_within_targets S →
        ∃ prog, PauliFrameSimulation.recorded_from_tableau_sim S ops = some prog)
    ∧ ∀ prog, PauliFrameSimulation.recorded_from_tableau_sim S ops = some prog →
        prog.num_qubits = spec_num_qubits ops
          ∧ prog.num_measurements = spec_num_measurements ops := by
  refine ⟨fun hS => recorded_defined S hS ops, ?_⟩
  intro prog hprog
  obtain ⟨_, _, hq, hm, _⟩ := recorded_eq_some S ops prog hprog
  rw [hq, hm]
  exact ⟨prescan_num_qubits ops htargets, prescan_num_measurements ops hsize⟩

/-- C6 amended, on the stream `H 4; M 1 0; R 2; M 0`. -/
theorem recorded_header_witness :
    (∀ op ∈ [(⟨"H", [4]⟩ : Operation), ⟨"M", [1, 0]⟩, ⟨"R", [2]⟩, ⟨"M", [0]⟩],
        ∀ q ∈ op.targets, q < SIZE_MAX)
    ∧ spec_num_measurements [⟨"H", [4]⟩, ⟨"M", [1, 0]⟩, ⟨"R", [2]⟩, ⟨"M", [0]⟩] < SIZE_MOD
    ∧ PauliFrameSimulation.recorded_from_tableau_sim (scriptedSim [])
        [⟨"H", [4]⟩, ⟨"M", [1, 0]⟩, ⟨"R", [2]⟩, ⟨"M", [0]⟩]
      = some { num_qubits := 5, num_measurements := 3,
               cycles := [{ step1_unitary := [⟨"H", [4]⟩],
                            step3_measure := [⟨1, false⟩, ⟨0, false⟩, ⟨0, false⟩],
                            step4_reset := [2] }] }
    ∧ (5 = spec_num_qubits [⟨"H", [4]⟩, ⟨"M", [1, 0]⟩, ⟨"R", [2]⟩, ⟨"M", [0]⟩]
        ∧ 3 = spec_num_measurements [⟨"H", [4]⟩, ⟨"M", [1, 0]⟩, ⟨"R", [2]⟩, ⟨"M", [0]⟩]) :=
  ⟨by decide, by decide, rfl,
    (recorded_header (scriptedSim []) [⟨"H", [4]⟩, ⟨"M", [1, 0]⟩, ⟨"R", [2]⟩, ⟨"M", [0]⟩]
      (by decide) (by decide)).2 _ rfl⟩

/-- C9. For the stream `H 0; CX 0 1; M 0 1` and a simulator whose collapse of
the targets `[0, 1]`, after the two gates on a fresh two-qubit state, returns a
result `r0` with non-empty `indexed_words` for qubit 0 and a result `r1` with
empty `indexed_words` for qubit 1, the recorder returns the program with
`num_qubits = 2`, `num_measurements = 2` and the single cycle with unitaries
`[H 0, CX 0 1]`, the one collapse event of `r0`, reports
`[(0, r0.sign), (1, r1.sign)]` and no reset. -/
theorem recorded_bell_pair {σ : Type} (S : ChpSim σ) (r0 r1 : SparsePauliString) (s' : σ)
    (hcollapse : S.inspected_collapse
        (S.func_op (S.func_op (S.init 2) "H" [0]) "CX" [0, 1]) [0, 1] = ([r0, r1], s'))
    (h0 : r0.indexed_words ≠ []) (h1 : r1.indexed_words = []) :
    PauliFrameSimulation.recorded_from_tableau_sim S
        [⟨"H", [0]⟩, ⟨"CX", [0, 1]⟩, ⟨"M", [0, 1]⟩]
      = some { num_qubits := 2, num_measurements := 2,
               cycles := [{ step1_unitary := [⟨"H", [0]⟩, ⟨"CX", [0, 1]⟩],
                            step2_collapse := [⟨r0⟩],
                            step3_measure := [⟨0, r0.sign⟩, ⟨1, r1.sign⟩],
                            step4_reset := [] }] } := by
  have hq : (prescan [⟨"H", [0]⟩, ⟨"CX", [0, 1]⟩, ⟨"M", [0, 1]⟩]).num_qubits = 2 := by decide
  have hm : (prescan [⟨"H", [0]⟩, ⟨"CX", [0, 1]⟩, ⟨"M", [0, 1]⟩]).num_measurements = 2 := by
    decide
  have e0 : r0.indexed_words.isEmpty = false := by
    cases hw : r0.indexed_words with
    | nil => exact absurd hw h0
    | cons w ws => rfl
  have e1 : r1.indexed_words.isEmpty = true := by rw [h1]; rfl
  rw [recorded_unfold, hq, hm]
  simp [record_ops, record_op, split_on_conflict, recorder_init, hcollapse, measure_loop,
    push_collapse, e0, e1, flush, PauliFrameSimCycle.has_content, PHASE_UNITARY,
    PHASE_COLLAPSED, set_phase]

/-- C9, with the scripted simulator answering the collapse with a random result
for qubit 0 and a deterministic one for qubit 1, both of sign `true`. -/
theorem recorded_bell_pair_witness :
    (scriptedSim [[random_result true 0, deterministic_result true]]).inspected_collapse
        ((scriptedSim [[random_result true 0, deterministic_result true]]).func_op
          ((scriptedSim [[random_result true 0, deterministic_result true]]).func_op
            ((scriptedSim [[random_result true 0, deterministic_result true]]).init 2)
            "H" [0]) "CX" [0, 1]) [0, 1]
      = ([random_result true 0, deterministic_result true], [])
    ∧ (random_result true 0).indexed_words ≠ []
    ∧ (deterministic_result true).indexed_words = []
    ∧ PauliFrameSimulation.recorded_from_tableau_sim
        (scriptedSim [[random_result true 0, deterministic_result true]])
        [⟨"H", [0]⟩, ⟨"CX", [0, 1]⟩, ⟨"M", [0, 1]⟩]
      = some { num_qubits := 2, num_measurements := 2,
               cycles := [{ step1_unitary := [⟨"H", [0]⟩, ⟨"CX", [0, 1]⟩],
                            step2_collapse := [⟨random_result true 0⟩],
                            step3_measure := [⟨0, true⟩, ⟨1, true⟩],
                            step4_reset := [] }] } :=
  ⟨rfl, by decide, rfl,
    recorded_bell_pair (scriptedSim [[random_result true 0, deterministic_result true]])
      (random_result true 0) (deterministic_result true) [] rfl (by decide) rfl⟩

/-! ## The replay -/

theorem sample_unitary_fold (P : PauliOps) (ops : List Operation) :
    ∀ st : SampleState,
      (ops.foldl (sample_unitary P) st).result_count = st.result_count
        ∧ (ops.foldl (sample_unitary P) st).out = st.out := by
  induction ops with
  | nil => intro st; exact ⟨rfl, rfl⟩
  | cons op ops ih =>
    intro st
    simp only [List.foldl_cons]
    obtain ⟨h1, h2⟩ := ih (sample_unitary P st op)
    rw [h1, h2]
    exact ⟨rfl, rfl⟩

theorem sample_collapse_fold (P : PauliOps) (cs : List PauliFrameSimCollapse) :
    ∀ st : SampleState,
      (cs.foldl (sample_collapse P) st).result_count = st.result_count
        ∧ (cs.foldl (sample_collapse P) st).out = st.out := by
  induction cs with
  | nil => intro st; exact ⟨rfl, rfl⟩
  | cons c cs ih =>
    intro st
    simp only [List.foldl_cons]
    obtain ⟨h1, h2⟩ := ih (sample_collapse P st c)
    rw [h1, h2]
    unfold sample_collapse
    by_cases hflip : (rand_bit st.rng).1 = true <;> simp [hflip]

theorem sample_before_measure_keeps (P : PauliOps) (st : SampleState)
    (c : PauliFrameSimCycle) :
    (sample_before_measure P st c).result_count = st.result_count
      ∧ (sample_before_measure P st c).out = st.out := by
  unfold sample_before_measure
  obtain ⟨h1, h2⟩ := sample_collapse_fold P c.step2_collapse
    (c.step1_unitary.foldl (sample_unitary P) st)
  obtain ⟨g1, g2⟩ := sample_unitary_fold P c.step1_unitary st
  rw [h1, h2, g1, g2]
  exact ⟨rfl, rfl⟩

theorem spec_written_nil (out : Nat → Bool) (k : Nat) : spec_written out k [] = out := by
  funext i
  simp only [spec_written, List.length_nil, Nat.add_zero]
  rw [if_neg (by omega)]

theorem spec_written_append (out : Nat → Bool) (k : Nat) (a b : List Bool) :
    spec_written (spec_written out k a) (k + a.length) b = spec_written out k (a ++ b) := by
  funext i
  simp only [spec_written, List.length_append]
  by_cases h1 : k + a.length ≤ i ∧ i < k + a.length + b.length
  · rw [if_pos h1, if_pos (by omega)]
    have hsub : i - k = a.length + (i - (k + a.length)) := by omega
    rw [hsub, List.getD_eq_getElem?_getD, List.getD_eq_getElem?_getD,
      List.getElem?_append_right (by omega)]
    congr 2
    omega
  · rw [if_neg h1]
    by_cases h2 : k ≤ i ∧ i < k + a.length
    · rw [if_pos h2, if_pos (by omega)]
      rw [List.getD_eq_getElem?_getD, List.getD_eq_getElem?_getD,
        List.getElem?_append_left (by omega)]
    · rw [if_neg h2, if_neg (by omega)]

theorem spec_written_cons (out : Nat → Bool) (k : Nat) (b : Bool) (bs : List Bool) :
    spec_written (set_bit out k b) (k + 1) bs = spec_written out k (b :: bs) := by
  have h := spec_written_append out k [b] bs
  have h1 : spec_written out k [b] = set_bit out k b := by
    funext i
    simp only [spec_written, set_bit, List.length_singleton]
    by_cases hi : i = k
    · subst hi
      simp
    · rw [if_neg (by omega), if_neg hi]
  rw [h1] at h
  simpa using h

theorem sample_measure_fold (ms : List PauliFrameSimMeasurement) :
    ∀ st : SampleState, st.result_count + ms.length < SIZE_MOD →
      (ms.foldl sample_measure st).pauli_frame = st.pauli_frame
        ∧ (ms.foldl sample_measure st).rng = st.rng
        ∧ (ms.foldl sample_measure st).result_count = st.result_count + ms.length
        ∧ (ms.foldl sample_measure st).out
            = spec_written st.out st.result_count
                (ms.map (fun m => xor (st.pauli_frame.get_x_bit m.target_qubit) m.invert)) := by
  induction ms with
  | nil =>
    intro st _
    simp [spec_written_nil]
  | cons m ms ih =>
    intro st h
    simp only [List.length_cons] at h
    have hmod : (st.result_count + 1) % SIZE_MOD = st.result_count + 1 :=
      Nat.mod_eq_of_lt (by omega)
    simp only [List.foldl_cons]
    obtain ⟨h1, h2, h3, h4⟩ := ih (sample_measure st m) (by
      simp only [sample_measure, hmod]
      omega)
    rw [h1, h2, h3, h4]
    simp only [sample_measure, hmod, List.map_cons, List.length_cons, spec_written_cons]
    exact ⟨trivial, trivial, by omega, trivial⟩

theorem sample_reset_fold (qs : List Nat) :
    ∀ st : SampleState,
      (qs.foldl sample_reset st).result_count = st.result_count
        ∧ (qs.foldl sample_reset st).out = st.out
        ∧ (qs.foldl sample_reset st).rng = st.rng
        ∧ (∀ q, (qs.foldl sample_reset st).pauli_frame.get_x_bit q
            = if q ∈ qs then false else st.pauli_frame.get_x_bit q)
        ∧ (∀ q, (qs.foldl sample_reset st).pauli_frame.get_z_bit q
            = if q ∈ qs then false else st.pauli_frame.get_z_bit q) := by
  induction qs with
  | nil => intro st; simp
  | cons a qs ih =>
    intro st
    simp only [List.foldl_cons]
    obtain ⟨h1, h2, h3, h4, h5⟩ := ih (sample_reset st a)
    refine ⟨by rw [h1]; rfl, by rw [h2]; rfl, by rw [h3]; rfl, ?_, ?_⟩
    · intro q
      rw [h4]
      by_cases hq : q ∈ qs
      · simp [hq]
      · by_cases ha : q = a
        · simp [hq, ha, sample_reset, PauliFrame.get_x_bit, PauliFrame.set_x_bit]
        · simp [hq, ha, sample_reset, PauliFrame.get_x_bit, PauliFrame.set_x_bit,
            PauliFrame.set_z_bit]
    · intro q
      rw [h5]
      by_cases hq : q ∈ qs
      · simp [hq]
      · by_cases ha : q = a
        · simp [hq, ha, sample_reset, PauliFrame.get_z_bit, PauliFrame.set_x_bit,
            PauliFrame.set_z_bit]
        · simp [hq, ha, sample_reset, PauliFrame.get_z_bit, PauliFrame.set_x_bit,
            PauliFrame.set_z_bit]

theorem sample_cycle_reports (P : PauliOps) (st : SampleState) (c : PauliFrameSimCycle)
    (h : st.result_count + c.step3_measure.length < SIZE_MOD) :
    (sample_cycle P st c).result_count = st.result_count + c.step3_measure.length
      ∧ (sample_cycle P st c).out
          = spec_written st.out st.result_count
              (c.step3_measure.map
                (fun m => xor ((sample_before_measure P st c).pauli_frame.get_x_bit
                  m.target_qubit) m.invert)) := by
  obtain ⟨k1, k2⟩ := sample_before_measure_keeps P st c
  obtain ⟨_, _, m3, m4⟩ := sample_measure_fold c.step3_measure (sample_before_measure P st c)
    (by rw [k1]; exact h)
  obtain ⟨r1, r2, _, _, _⟩ := sample_reset_fold c.step4_reset (sample_before_reset P st c)
  unfold sample_cycle
  rw [r1, r2]
  unfold sample_before_reset
  rw [m3, m4, k1, k2]
  exact ⟨rfl, rfl⟩

theorem sample_cycles_reports (P : PauliOps) (cs : List PauliFrameSimCycle) :
    ∀ st : SampleState, st.result_count + (all_measure cs).length < SIZE_MOD →
      (cs.foldl (sample_cycle P) st).result_count = st.result_count + (all_measure cs).length
        ∧ (cs.foldl (sample_cycle P) st).out
            = spec_written st.out st.result_count (spec_report_bits P cs st)
        ∧ (spec_report_bits P cs st).length = (all_measure cs).length := by
  induction cs with
  | nil =>
    intro st _
    simp [all_measure, spec_report_bits, spec_written_nil]
  | cons c cs ih =>
    intro st h
    have hlen : (all_measure (c :: cs)).length
        = c.step3_measure.length + (all_measure cs).length := by
      simp [all_measure]
    rw [hlen] at h
    obtain ⟨c1, c2⟩ := sample_cycle_reports P st c (by omega)
    obtain ⟨i1, i2, i3⟩ := ih (sample_cycle P st c) (by rw [c1]; omega)
    simp only [List.foldl_cons, spec_report_bits, List.length_append, List.length_map]
    rw [i1, i2, i3, c1, c2, hlen]
    refine ⟨by omega, ?_, rfl⟩
    have := spec_written_append st.out st.result_count
      (c.step3_measure.map
        (fun m => xor ((sample_before_measure P st c).pauli_frame.get_x_bit
          m.target_qubit) m.invert))
      (spec_report_bits P cs (sample_cycle P st c))
    rw [List.length_map] at this
    exact this

theorem sample_cycle_resets (P : PauliOps) (st : SampleState) (c : PauliFrameSimCycle) :
    (∀ q, (sample_cycle P st c).pauli_frame.get_x_bit q
        = if q ∈ c.step4_reset then false
          else (sample_before_reset P st c).pauli_frame.get_x_bit q)
      ∧ (∀ q, (sample_cycle P st c).pauli_frame.get_z_bit q
        = if q ∈ c.step4_reset then false
          else (sample_before_reset P st c).pauli_frame.get_z_bit q) := by
  obtain ⟨_, _, _, hx, hz⟩ := sample_reset_fold c.step4_reset (sample_before_reset P st c)
  exact ⟨hx, hz⟩

/-! ## Claims on the replay -/

/-- C3. For a program with fewer reports than there are `size_t` values,
`sample` writes exactly the `N` report bits, `N` being the number of
`step3_measure` entries over all cycles: position `i < N` receives bit `i` of
the sequence read cycle by cycle and, within a cycle, in `step3_measure`
order, the bit of a report `(q, invert)` being the X bit of `q` in the frame
after the unitaries and collapse events of its cycle XOR `invert`; positions
`N` and above keep the bit they had. -/
theorem sample_writes_reports (P : PauliOps) (ps : PauliFrameSimulation) (out : Nat → Bool)
    (rng : Rng) (hsize : (all_measure ps.cycles).length < SIZE_MOD) :
    (spec_report_bits P ps.cycles (sample_init ps out rng)).length
        = (all_measure ps.cycles).length
    ∧ (ps.sample P out rng).result_count = (all_measure ps.cycles).length
    ∧ (∀ i, i < (all_measure ps.cycles).length →
        (ps.sample P out rng).out i
          = (spec_report_bits P ps.cycles (sample_init ps out rng)).getD i false)
    ∧ (∀ i, (all_measure ps.cycles).length ≤ i → (ps.sample P out rng).out i = out i) := by
  obtain ⟨h1, h2, h3⟩ := sample_cycles_reports P ps.cycles (sample_init ps out rng)
    (by simpa [sample_init] using hsize)
  have hout : (ps.sample P out rng).out
      = spec_written out 0 (spec_report_bits P ps.cycles (sample_init ps out rng)) := h2
  refine ⟨h3, by simpa [sample_init] using h1, ?_, ?_⟩
  · intro i hi
    rw [hout]
    simp only [spec_written, h3, Nat.zero_le, true_and, Nat.zero_add, Nat.sub_zero]
    rw [if_pos hi]
  · intro i hi
    rw [hout]
    simp only [spec_written, h3, Nat.zero_le, true_and, Nat.zero_add]
    rw [if_neg (by omega)]

/-- C3, on a program of two cycles with three reports, replayed with frame
transformations that leave the frame alone, on an output vector of ones. -/
theorem sample_writes_reports_witness :
    (all_measure [({ step3_measure := [⟨0, true⟩, ⟨1, false⟩] } : PauliFrameSimCycle),
        { step3_measure := [⟨0, true⟩], step4_reset := [0] }]).length < SIZE_MOD
    ∧ ((spec_report_bits idleOps
          [{ step3_measure := [⟨0, true⟩, ⟨1, false⟩] },
            { step3_measure := [⟨0, true⟩], step4_reset := [0] }]
          (sample_init
            { num_qubits := 2, num_measurements := 3,
              cycles := [{ step3_measure := [⟨0, true⟩, ⟨1, false⟩] },
                { step3_measure := [⟨0, true⟩], step4_reset := [0] }] }
            (fun _ => true) ⟨fun _ => true, 0⟩)).length
        = (all_measure [({ step3_measure := [⟨0, true⟩, ⟨1, false⟩] } : PauliFrameSimCycle),
            { step3_measure := [⟨0, true⟩], step4_reset := [0] }]).length
      ∧ (PauliFrameSimulation.sample idleOps
            { num_qubits := 2, num_measurements := 3,
              cycles := [{ step3_measure := [⟨0, true⟩, ⟨1, false⟩] },
                { step3_measure := [⟨0, true⟩], step4_reset := [0] }] }
            (fun _ => true) ⟨fun _ => true, 0⟩).result_count
          = (all_measure [({ step3_measure := [⟨0, true⟩, ⟨1, false⟩] } : PauliFrameSimCycle),
              { step3_measure := [⟨0, true⟩], step4_reset := [0] }]).length
      ∧ (∀ i, i < (all_measure
              [({ step3_measure := [⟨0, true⟩, ⟨1, false⟩] } : PauliFrameSimCycle),
                { step3_measure := [⟨0, true⟩], step4_reset := [0] }]).length →
          (PauliFrameSimulation.sample idleOps
              { num_qubits := 2, num_measurements := 3,
                cycles := [{ step3_measure := [⟨0, true⟩, ⟨1, false⟩] },
                  { step3_measure := [⟨0, true⟩], step4_reset := [0] }] }
              (fun _ => true) ⟨fun _ => true, 0⟩).out i
            = (spec_report_bits idleOps
                [{ step3_measure := [⟨0, true⟩, ⟨1, false⟩] },
                  { step3_measure := [⟨0, true⟩], step4_reset := [0] }]
                (sample_init
                  { num_qubits := 2, num_measurements := 3,
                    cycles := [{ step3_measure := [⟨0, true⟩, ⟨1, false⟩] },
                      { step3_measure := [⟨0, true⟩], step4_reset := [0] }] }
                  (fun _ => true) ⟨fun _ => true, 0⟩)).getD i false)
      ∧ (∀ i, (all_measure
              [({ step3_measure := [⟨0, true⟩, ⟨1, false⟩] } : PauliFrameSimCycle),
                { step3_measure := [⟨0, true⟩], step4_reset := [0] }]).length ≤ i →
          (PauliFrameSimulation.sample idleOps
              { num_qubits := 2, num_measurements := 3,
                cycles := [{ step3_measure := [⟨0, true⟩, ⟨1, false⟩] },
                  { step3_measure := [⟨0, true⟩], step4_reset := [0] }] }
              (fun _ => true) ⟨fun _ => true, 0⟩).out i = (fun _ => true) i)) :=
  ⟨by decide,
    sample_writes_reports idleOps
      { num_qubits := 2, num_measurements := 3,
        cycles := [{ step3_measure := [⟨0, true⟩, ⟨1, false⟩] },
          { step3_measure := [⟨0, true⟩], step4_reset := [0] }] }
      (fun _ => true) ⟨fun _ => true, 0⟩ (by decide)⟩

/-- C8. In `sample`, at every cycle `c` of the program: after the reset loop of
`c` the X bit and the Z bit of the frame are 0 for every qubit in
`c.step4_reset`, and for every other qubit they are what they were when the
reset loop started; the run then goes on with the remaining cycles. -/
theorem reset_phase_effect (P : PauliOps) (ps : PauliFrameSimulation) (out : Nat → Bool)
    (rng : Rng) (before after : List PauliFrameSimCycle) (c : PauliFrameSimCycle)
    (hc : ps.cycles = before ++ c :: after) :
    (∀ q ∈ c.step4_reset,
        (sample_cycle P (before.foldl (sample_cycle P) (sample_init ps out rng)) c).pauli_frame.get_x_bit q
            = false
          ∧ (sample_cycle P (before.foldl (sample_cycle P) (sample_init ps out rng)) c).pauli_frame.get_z_bit q
            = false)
    ∧ (∀ q, q ∉ c.step4_reset →
        (sample_cycle P (before.foldl (sample_cycle P) (sample_init ps out rng)) c).pauli_frame.get_x_bit q
            = (sample_before_reset P (before.foldl (sample_cycle P) (sample_init ps out rng))
                c).pauli_frame.get_x_bit q
          ∧ (sample_cycle P (before.foldl (sample_cycle P) (sample_init ps out rng)) c).pauli_frame.get_z_bit q
            = (sample_before_reset P (before.foldl (sample_cycle P) (sample_init ps out rng))
                c).pauli_frame.get_z_bit q)
    ∧ ps.sample P out rng
        = after.foldl (sample_cycle P)
            (sample_cycle P (before.foldl (sample_cycle P) (sample_init ps out rng)) c) := by
  obtain ⟨hx, hz⟩ := sample_cycle_resets P
    (before.foldl (sample_cycle P) (sample_init ps out rng)) c
  refine ⟨?_, ?_, ?_⟩
  · intro q hq
    rw [hx, hz]
    simp only [hq, if_true, and_self]
  · intro q hq
    rw [hx, hz]
    simp only [hq, if_false, and_self]
  · unfold PauliFrameSimulation.sample
    rw [hc, List.foldl_append, List.foldl_cons]

/-- C8, on the first cycle of `example_program`, whose collapse sets the X bit of
qubit 0 before the reset clears it. -/
theorem reset_phase_effect_witness :
    example_program.cycles = [] ++ example_cycle :: [{ step3_measure := [⟨0, false⟩] }]
    ∧ (sample_before_reset kickbackOps
          (([] : List PauliFrameSimCycle).foldl (sample_cycle kickbackOps)
            (sample_init example_program (fun _ => false) all_heads))
          example_cycle).pauli_frame.get_x_bit 0 = true
    ∧ (∀ q ∈ example_cycle.step4_reset,
        (sample_cycle kickbackOps
            (([] : List PauliFrameSimCycle).foldl (sample_cycle kickbackOps)
              (sample_init example_program (fun _ => false) all_heads))
            example_cycle).pauli_frame.get_x_bit q = false
          ∧ (sample_cycle kickbackOps
            (([] : List PauliFrameSimCycle).foldl (sample_cycle kickbackOps)
              (sample_init example_program (fun _ => false) all_heads))
            example_cycle).pauli_frame.get_z_bit q = false) :=
  ⟨rfl, by decide,
    (reset_phase_effect kickbackOps example_program (fun _ => false) all_heads []
      [{ step3_measure := [⟨0, false⟩] }] example_cycle rfl).1⟩

/-- C10. For the stream `R 0; M 0` and a simulator whose collapse of qubit 0 is
deterministic on the fresh state and deterministic with sign `false` after the
reset, the recorder returns the two-cycle program `R 0` / report of qubit 0,
which holds no collapse event, and `sample` on it writes 0 at output position 0
whatever the frame transformations, the output vector and the coins are. -/
theorem reset_then_measure {σ : Type} (S : ChpSim σ) (ra rb : SparsePauliString) (s1 s2 : σ)
    (hfirst : S.inspected_collapse (S.init 1) [0] = ([ra], s1))
    (hsecond : S.inspected_collapse (S.reset_many s1 [0]) [0] = ([rb], s2))
    (ha : ra.indexed_words = []) (hb : rb.indexed_words = []) (hsign : rb.sign = false) :
    PauliFrameSimulation.recorded_from_tableau_sim S [⟨"R", [0]⟩, ⟨"M", [0]⟩]
      = some { num_qubits := 1, num_measurements := 1,
               cycles := [{ step4_reset := [0] }, { step3_measure := [⟨0, false⟩] }] }
    ∧ all_collapse [({ step4_reset := [0] } : PauliFrameSimCycle),
        { step3_measure := [⟨0, false⟩] }] = []
    ∧ ∀ (P : PauliOps) (out : Nat → Bool) (rng : Rng),
        (PauliFrameSimulation.sample P
          { num_qubits := 1, num_measurements := 1,
            cycles := [{ step4_reset := [0] }, { step3_measure := [⟨0, false⟩] }] }
          out rng).out 0 = false := by
  have hq : (prescan [⟨"R", [0]⟩, ⟨"M", [0]⟩]).num_qubits = 1 := by decide
  have hm : (prescan [⟨"R", [0]⟩, ⟨"M", [0]⟩]).num_measurements = 1 := by decide
  have ea : ra.indexed_words.isEmpty = true := by rw [ha]; rfl
  have eb : rb.indexed_words.isEmpty = true := by rw [hb]; rfl
  refine ⟨?_, rfl, ?_⟩
  · rw [recorded_unfold, hq, hm]
    simp [record_ops, record_op, split_on_conflict, recorder_init, hfirst, hsecond,
      reset_loop, measure_loop, push_collapse, ea, eb, hsign, flush, start_next_moment,
      PauliFrameSimCycle.has_content, PHASE_UNITARY, PHASE_COLLAPSED, PHASE_RESET, set_phase]
  · intro P out rng
    simp [PauliFrameSimulation.sample, sample_cycle, sample_before_reset, sample_before_measure,
      sample_init, sample_measure, sample_reset, set_bit, PauliFrame.get_x_bit,
      PauliFrame.set_x_bit, PauliFrame.set_z_bit, PauliFrame.identity]

/-- C10, with the scripted simulator answering both collapses with the
deterministic result of sign `false`. -/
theorem reset_then_measure_witness :
    (scriptedSim []).inspected_collapse ((scriptedSim []).init 1) [0]
      = ([deterministic_result_false], [])
    ∧ (scriptedSim []).inspected_collapse ((scriptedSim []).reset_many [] [0]) [0]
      = ([deterministic_result_false], [])
    ∧ deterministic_result_false.indexed_words = []
    ∧ deterministic_result_false.sign = false
    ∧ (PauliFrameSimulation.recorded_from_tableau_sim (scriptedSim [])
          [⟨"R", [0]⟩, ⟨"M", [0]⟩]
        = some { num_qubits := 1, num_measurements := 1,
                 cycles := [{ step4_reset := [0] }, { step3_measure := [⟨0, false⟩] }] }
      ∧ all_collapse [({ step4_reset := [0] } : PauliFrameSimCycle),
          { step3_measure := [⟨0, false⟩] }] = []
      ∧ ∀ (P : PauliOps) (out : Nat → Bool) (rng : Rng),
          (PauliFrameSimulation.sample P
            { num_qubits := 1, num_measurements := 1,
              cycles := [{ step4_reset := [0] }, { step3_measure := [⟨0, false⟩] }] }
            out rng).out 0 = false) :=
  ⟨rfl, rfl, rfl, rfl,
    reset_then_measure (scriptedSim []) deterministic_result_false deterministic_result_false
      [] [] rfl rfl rfl rfl rfl⟩

/-! ## Claims on the recorder, continued -/

theorem record_ops_append {σ : Type} (S : ChpSim σ) (a b : List Operation) :
    ∀ st : RecorderState σ,
      record_ops S (a ++ b) st = (record_ops S a st).bind (record_ops S b) := by
  induction a with
  | nil => intro st; rfl
  | cons op a ih =>
    intro st
    simp only [List.cons_append, record_ops]
    rcases record_op S st op with _ | st1
    · rfl
    · exact ih st1

theorem prescan_op_tick (rs : PauliFrameSimulation) : prescan_op rs ⟨"TICK", []⟩ = rs := by
  unfold prescan_op
  rw [if_neg (by decide)]
  rfl

/-- C11. Inserting a `TICK` without targets at any position of a stream does not
change what the recorder returns: same `num_qubits`, same `num_measurements`,
same cycles. The iteration on a `TICK` leaves the whole recorder state as it
is, simulator included, and so starts no cycle. -/
theorem tick_insertion {σ : Type} (S : ChpSim σ) (before after : List Operation) :
    PauliFrameSimulation.recorded_from_tableau_sim S (before ++ ⟨"TICK", []⟩ :: after)
        = PauliFrameSimulation.recorded_from_tableau_sim S (before ++ after)
    ∧ ∀ st : RecorderState σ, record_op S st ⟨"TICK", []⟩ = some st := by
  have htick : ∀ st : RecorderState σ, record_op S st ⟨"TICK", []⟩ = some st :=
    fun st => record_op_tick S st ⟨"TICK", []⟩ rfl
  have hpre : prescan (before ++ ⟨"TICK", []⟩ :: after) = prescan (before ++ after) := by
    unfold prescan
    rw [List.foldl_append, List.foldl_cons, prescan_op_tick, List.foldl_append]
  have hrun : record_ops S (⟨"TICK", []⟩ :: after) = record_ops S after := by
    funext st
    simp only [record_ops, htick, Option.some_bind]
  refine ⟨?_, htick⟩
  rw [recorded_unfold, recorded_unfold, hpre, record_ops_append, record_ops_append, hrun]

/-! ## The coins of the replay -/

theorem sample_collapse_eq (P : PauliOps) (st : SampleState) (e : PauliFrameSimCollapse) :
    sample_collapse P st e
      = { st with
          rng := { coins := st.rng.coins, drawn := st.rng.drawn + 1 }
          pauli_frame :=
            if st.rng.coins st.rng.drawn then
              P.unsigned_multiply_by st.pauli_frame e.destabilizer
            else st.pauli_frame } := by
  unfold sample_collapse rand_bit
  by_cases h : st.rng.coins st.rng.drawn = true <;> simp [h]

theorem sample_unitary_fold_rng (P : PauliOps) (ops : List Operation) :
    ∀ st : SampleState, (ops.foldl (sample_unitary P) st).rng = st.rng := by
  induction ops with
  | nil => intro st; rfl
  | cons op ops ih =>
    intro st
    simp only [List.foldl_cons]
    rw [ih]
    rfl

theorem sample_collapse_fold_rng (P : PauliOps) (cs : List PauliFrameSimCollapse) :
    ∀ st : SampleState,
      (cs.foldl (sample_collapse P) st).rng
        = { coins := st.rng.coins, drawn := st.rng.drawn + cs.length } := by
  induction cs with
  | nil => intro st; rfl
  | cons e cs ih =>
    intro st
    simp only [List.foldl_cons, List.length_cons]
    rw [ih, sample_collapse_eq]
    simp only [Rng.mk.injEq, true_and]
    omega

theorem sample_measure_fold_rng (ms : List PauliFrameSimMeasurement) :
    ∀ st : SampleState,
      (ms.foldl sample_measure st).rng = st.rng
        ∧ (ms.foldl sample_measure st).pauli_frame = st.pauli_frame := by
  induction ms with
  | nil => intro st; exact ⟨rfl, rfl⟩
  | cons m ms ih =>
    intro st
    simp only [List.foldl_cons]
    obtain ⟨h1, h2⟩ := ih (sample_measure st m)
    rw [h1, h2]
    exact ⟨rfl, rfl⟩

theorem sample_before_measure_rng (P : PauliOps) (st : SampleState) (c : PauliFrameSimCycle) :
    (sample_before_measure P st c).rng
      = { coins := st.rng.coins, drawn := st.rng.drawn + c.step2_collapse.length } := by
  unfold sample_before_measure
  rw [sample_collapse_fold_rng, sample_unitary_fold_rng]

theorem sample_cycle_rng (P : PauliOps) (st : SampleState) (c : PauliFrameSimCycle) :
    (sample_cycle P st c).rng = (sample_before_measure P st c).rng := by
  obtain ⟨_, _, r3, _, _⟩ := sample_reset_fold c.step4_reset (sample_before_reset P st c)
  obtain ⟨m1, _⟩ := sample_measure_fold_rng c.step3_measure (sample_before_measure P st c)
  unfold sample_cycle
  rw [r3]
  unfold sample_before_reset
  rw [m1]

theorem sample_cycles_rng (P : PauliOps) (cs : List PauliFrameSimCycle) :
    ∀ st : SampleState,
      (cs.foldl (sample_cycle P) st).rng
        = { coins := st.rng.coins, drawn := st.rng.drawn + (all_collapse cs).length } := by
  induction cs with
  | nil => intro st; rfl
  | cons c cs ih =>
    intro st
    simp only [List.foldl_cons]
    rw [ih, sample_cycle_rng, sample_before_measure_rng]
    simp only [all_collapse, List.flatMap_cons, List.length_append, Rng.mk.injEq, true_and]
    omega

theorem agree_unitary_fold (P : PauliOps) (ops : List Operation) :
    ∀ st1 st2 : SampleState, st1.agree st2 →
      (ops.foldl (sample_unitary P) st1).agree (ops.foldl (sample_unitary P) st2) := by
  induction ops with
  | nil => intro st1 st2 h; exact h
  | cons op ops ih =>
    intro st1 st2 h
    simp only [List.foldl_cons]
    apply ih
    obtain ⟨h1, h2, h3⟩ := h
    exact ⟨by simp only [sample_unitary, h1], h2, h3⟩

theorem agree_collapse_fold (P : PauliOps) (cs : List PauliFrameSimCollapse) :
    ∀ st1 st2 : SampleState, st1.agree st2 →
      (∀ i, i < cs.length →
        st1.rng.coins (st1.rng.drawn + i) = st2.rng.coins (st2.rng.drawn + i)) →
      (cs.foldl (sample_collapse P) st1).agree (cs.foldl (sample_collapse P) st2) := by
  induction cs with
  | nil => intro st1 st2 h _; exact h
  | cons e cs ih =>
    intro st1 st2 h hcoins
    simp only [List.foldl_cons]
    obtain ⟨h1, h2, h3⟩ := h
    have h0 := hcoins 0 (by simp)
    simp only [Nat.add_zero] at h0
    apply ih
    · rw [sample_collapse_eq, sample_collapse_eq]
      exact ⟨by simp only [h0, h1], h2, h3⟩
    · intro i hi
      rw [sample_collapse_eq, sample_collapse_eq]
      have := hcoins (i + 1) (by simp only [List.length_cons]; omega)
      simp only [Nat.add_assoc, Nat.add_comm 1 i]
      exact this

theorem agree_measure_fold (ms : List PauliFrameSimMeasurement) :
    ∀ st1 st2 : SampleState, st1.agree st2 →
      (ms.foldl sample_measure st1).agree (ms.foldl sample_measure st2) := by
  induction ms with
  | nil => intro st1 st2 h; exact h
  | cons m ms ih =>
    intro st1 st2 h
    simp only [List.foldl_cons]
    apply ih
    obtain ⟨h1, h2, h3⟩ := h
    exact ⟨h1, by simp only [sample_measure, h2], by simp only [sample_measure, h1, h2, h3]⟩

theorem agree_reset_fold (qs : List Nat) :
    ∀ st1 st2 : SampleState, st1.agree st2 →
      (qs.foldl sample_reset st1).agree (qs.foldl sample_reset st2) := by
  induction qs with
  | nil => intro st1 st2 h; exact h
  | cons q qs ih =>
    intro st1 st2 h
    simp only [List.foldl_cons]
    apply ih
    obtain ⟨h1, h2, h3⟩ := h
    exact ⟨by simp only [sample_reset, h1], h2, h3⟩

theorem agree_cycle (P : PauliOps) (c : PauliFrameSimCycle) (st1 st2 : SampleState)
    (h : st1.agree st2)
    (hcoins : ∀ i, i < c.step2_collapse.length →
      st1.rng.coins (st1.rng.drawn + i) = st2.rng.coins (st2.rng.drawn + i)) :
    (sample_cycle P st1 c).agree (sample_cycle P st2 c) := by
  unfold sample_cycle sample_before_reset sample_before_measure
  apply agree_reset_fold
  apply agree_measure_fold
  apply agree_collapse_fold
  · exact agree_unitary_fold P _ _ _ h
  · intro i hi
    rw [sample_unitary_fold_rng, sample_unitary_fold_rng]
    exact hcoins i hi

theorem agree_cycles (P : PauliOps) (cs : List PauliFrameSimCycle) :
    ∀ st1 st2 : SampleState, st1.agree st2 →
      (∀ i, i < (all_collapse cs).length →
        st1.rng.coins (st1.rng.drawn + i) = st2.rng.coins (st2.rng.drawn + i)) →
      (cs.foldl (sample_cycle P) st1).agree (cs.foldl (sample_cycle P) st2) := by
  induction cs with
  | nil => intro st1 st2 h _; exact h
  | cons c cs ih =>
    intro st1 st2 h hcoins
    have hlen : (all_collapse (c :: cs)).length
        = c.step2_collapse.length + (all_collapse cs).length := by
      simp [all_collapse]
    simp only [List.foldl_cons]
    apply ih
    · exact agree_cycle P c st1 st2 h (fun i hi => hcoins i (by rw [hlen]; omega))
    · intro i hi
      rw [sample_cycle_rng, sample_cycle_rng, sample_before_measure_rng,
        sample_before_measure_rng]
      have := hcoins (c.step2_collapse.length + i) (by rw [hlen]; omega)
      simp only [Nat.add_assoc]
      exact this

/-- C12. `sample` draws one coin per collapse event and none elsewhere: the run
ends with as many coins drawn as the program has collapse events. Whenever the
program splits as `before ++ c :: after` and the collapse events of `c` as
`cpre ++ e :: cpost`, the run of `sample` passes through the state reached
after `before`, the unitaries of `c` and the events `cpre`; there `e` reads the
coin whose number is the count of collapse events in `before` and `cpre`, and
multiplies its destabilizer in exactly on heads; the run goes on with `cpost`,
the reports, the resets and `after`. The unitary, report and reset loops leave
the coin source as it is. So the output depends on the coin source only through
these coins: two runs whose coins agree write the same output. -/
theorem sample_coin_draws (P : PauliOps) (ps : PauliFrameSimulation) (out : Nat → Bool)
    (rng : Rng) :
    (ps.sample P out rng).rng
        = { coins := rng.coins, drawn := rng.drawn + (all_collapse ps.cycles).length }
    ∧ (∀ (before after : List PauliFrameSimCycle) (c : PauliFrameSimCycle)
        (cpre cpost : List PauliFrameSimCollapse) (e : PauliFrameSimCollapse),
        ps.cycles = before ++ c :: after → c.step2_collapse = cpre ++ e :: cpost →
        (cpre.foldl (sample_collapse P)
            (c.step1_unitary.foldl (sample_unitary P)
              (before.foldl (sample_cycle P) (sample_init ps out rng)))).rng
          = { coins := rng.coins,
              drawn := rng.drawn + ((all_collapse before).length + cpre.length) }
        ∧ sample_collapse P
            (cpre.foldl (sample_collapse P)
              (c.step1_unitary.foldl (sample_unitary P)
                (before.foldl (sample_cycle P) (sample_init ps out rng)))) e
          = { cpre.foldl (sample_collapse P)
                (c.step1_unitary.foldl (sample_unitary P)
                  (before.foldl (sample_cycle P) (sample_init ps out rng))) with
              rng := { coins := rng.coins,
                       drawn := rng.drawn + ((all_collapse before).length + cpre.length) + 1 }
              pauli_frame :=
                if rng.coins (rng.drawn + ((all_collapse before).length + cpre.length)) then
                  P.unsigned_multiply_by
                    (cpre.foldl (sample_collapse P)
                      (c.step1_unitary.foldl (sample_unitary P)
                        (before.foldl (sample_cycle P)
                          (sample_init ps out rng)))).pauli_frame e.destabilizer
                else
                  (cpre.foldl (sample_collapse P)
                    (c.step1_unitary.foldl (sample_unitary P)
                      (before.foldl (sample_cycle P) (sample_init ps out rng)))).pauli_frame }
        ∧ sample_before_measure P (before.foldl (sample_cycle P) (sample_init ps out rng)) c
          = cpost.foldl (sample_collapse P)
              (sample_collapse P
                (cpre.foldl (sample_collapse P)
                  (c.step1_unitary.foldl (sample_unitary P)
                    (before.foldl (sample_cycle P) (sample_init ps out rng)))) e)
        ∧ ps.sample P out rng
          = after.foldl (sample_cycle P)
              (c.step4_reset.foldl sample_reset
                (c.step3_measure.foldl sample_measure
                  (cpost.foldl (sample_collapse P)
                    (sample_collapse P
                      (cpre.foldl (sample_collapse P)
                        (c.step1_unitary.foldl (sample_unitary P)
                          (before.foldl (sample_cycle P) (sample_init ps out rng)))) e)))))
    ∧ (∀ (before after : List PauliFrameSimCycle) (c : PauliFrameSimCycle),
        ps.cycles = before ++ c :: after →
        (c.step1_unitary.foldl (sample_unitary P)
            (before.foldl (sample_cycle P) (sample_init ps out rng))).rng
          = (before.foldl (sample_cycle P) (sample_init ps out rng)).rng
        ∧ (sample_before_reset P (before.foldl (sample_cycle P) (sample_init ps out rng))
            c).rng
          = (sample_before_measure P (before.foldl (sample_cycle P) (sample_init ps out rng))
              c).rng
        ∧ (sample_cycle P (before.foldl (sample_cycle P) (sample_init ps out rng)) c).rng
          = (sample_before_reset P (before.foldl (sample_cycle P) (sample_init ps out rng))
              c).rng
        ∧ ps.sample P out rng
          = after.foldl (sample_cycle P)
              (sample_cycle P (before.foldl (sample_cycle P) (sample_init ps out rng)) c))
    ∧ (∀ (st : SampleState) (c : PauliFrameSimCycle),
        (c.step1_unitary.foldl (sample_unitary P) st).rng = st.rng
        ∧ (sample_before_reset P st c).rng = (sample_before_measure P st c).rng
        ∧ (sample_cycle P st c).rng = (sample_before_reset P st c).rng)
    ∧ (∀ rng2 : Rng,
        (∀ i, i < (all_collapse ps.cycles).length →
          rng2.coins (rng2.drawn + i) = rng.coins (rng.drawn + i)) →
        (ps.sample P out rng2).out = (ps.sample P out rng).out
        ∧ (ps.sample P out rng2).result_count = (ps.sample P out rng).result_count) := by
  have hphase : ∀ (st : SampleState) (c : PauliFrameSimCycle),
      (c.step1_unitary.foldl (sample_unitary P) st).rng = st.rng
      ∧ (sample_before_reset P st c).rng = (sample_before_measure P st c).rng
      ∧ (sample_cycle P st c).rng = (sample_before_reset P st c).rng := by
    intro st c
    refine ⟨sample_unitary_fold_rng P _ st, ?_, ?_⟩
    · unfold sample_before_reset
      exact (sample_measure_fold_rng _ _).1
    · obtain ⟨_, _, r3, _, _⟩ := sample_reset_fold c.step4_reset (sample_before_reset P st c)
      unfold sample_cycle
      exact r3
  refine ⟨?_, ?_, ?_, hphase, ?_⟩
  · unfold PauliFrameSimulation.sample
    rw [sample_cycles_rng]
    rfl
  · intro before after c cpre cpost e hc hstep2
    have hrng : (cpre.foldl (sample_collapse P)
        (c.step1_unitary.foldl (sample_unitary P)
          (before.foldl (sample_cycle P) (sample_init ps out rng)))).rng
        = { coins := rng.coins,
            drawn := rng.drawn + ((all_collapse before).length + cpre.length) } := by
      rw [sample_collapse_fold_rng, sample_unitary_fold_rng, sample_cycles_rng]
      simp only [sample_init, Rng.mk.injEq, true_and]
      omega
    have htie : sample_before_measure P
        (before.foldl (sample_cycle P) (sample_init ps out rng)) c
        = cpost.foldl (sample_collapse P)
            (sample_collapse P
              (cpre.foldl (sample_collapse P)
                (c.step1_unitary.foldl (sample_unitary P)
                  (before.foldl (sample_cycle P) (sample_init ps out rng)))) e) := by
      unfold sample_before_measure
      rw [hstep2, List.foldl_append, List.foldl_cons]
    refine ⟨hrng, ?_, htie, ?_⟩
    · rw [sample_collapse_eq, hrng]
    · rw [← htie]
      unfold PauliFrameSimulation.sample
      rw [hc, List.foldl_append, List.foldl_cons]
      rfl
  · intro before after c hc
    obtain ⟨p1, p2, p3⟩ := hphase (before.foldl (sample_cycle P) (sample_init ps out rng)) c
    refine ⟨p1, p2, p3, ?_⟩
    unfold PauliFrameSimulation.sample
    rw [hc, List.foldl_append, List.foldl_cons]
  · intro rng2 hcoins
    have hagree := agree_cycles P ps.cycles (sample_init ps out rng2) (sample_init ps out rng)
      ⟨rfl, rfl, rfl⟩ hcoins
    exact ⟨hagree.2.2, hagree.2.1⟩

/-- C12, on `two_collapse_program`, whose cycle has two collapse events: the
second event reads coin number 1, so with heads then tails only the first
destabilizer is multiplied in and the reports are 1 then 0; a coin source that
agrees on these two coins gives the same output. -/
theorem sample_coin_draws_witness :
    (two_collapse_program.cycles = [] ++ two_collapse_cycle :: []
      ∧ two_collapse_cycle.step2_collapse
          = [⟨random_result true 0⟩] ++ ⟨random_result true 1⟩ :: []
      ∧ (([⟨random_result true 0⟩] : List PauliFrameSimCollapse).foldl
            (sample_collapse kickbackOps)
            (two_collapse_cycle.step1_unitary.foldl (sample_unitary kickbackOps)
              (([] : List PauliFrameSimCycle).foldl (sample_cycle kickbackOps)
                (sample_init two_collapse_program (fun _ => false) heads_then_tails)))).rng
          = { coins := heads_then_tails.coins,
              drawn := heads_then_tails.drawn
                + ((all_collapse ([] : List PauliFrameSimCycle)).length
                  + ([⟨random_result true 0⟩] : List PauliFrameSimCollapse).length) }
      ∧ sample_before_measure kickbackOps
            (([] : List PauliFrameSimCycle).foldl (sample_cycle kickbackOps)
              (sample_init two_collapse_program (fun _ => false) heads_then_tails))
            two_collapse_cycle
          = ([] : List PauliFrameSimCollapse).foldl (sample_collapse kickbackOps)
              (sample_collapse kickbackOps
                (([⟨random_result true 0⟩] : List PauliFrameSimCollapse).foldl
                  (sample_collapse kickbackOps)
                  (two_collapse_cycle.step1_unitary.foldl (sample_unitary kickbackOps)
                    (([] : List PauliFrameSimCycle).foldl (sample_cycle kickbackOps)
                      (sample_init two_collapse_program (fun _ => false)
                        heads_then_tails))))
                ⟨random_result true 1⟩))
    ∧ ((two_collapse_program.sample kickbackOps (fun _ => false) heads_then_tails).out 0 = true
      ∧ (two_collapse_program.sample kickbackOps (fun _ => false) heads_then_tails).out 1
          = false)
    ∧ ((∀ i, i < (all_collapse two_collapse_program.cycles).length →
          (⟨fun k => decide (k = 0 ∨ k = 7), 0⟩ : Rng).coins
              ((⟨fun k => decide (k = 0 ∨ k = 7), 0⟩ : Rng).drawn + i)
            = heads_then_tails.coins (heads_then_tails.drawn + i))
      ∧ (two_collapse_program.sample kickbackOps (fun _ => false)
            ⟨fun k => decide (k = 0 ∨ k = 7), 0⟩).out
          = (two_collapse_program.sample kickbackOps (fun _ => false) heads_then_tails).out) :=
  ⟨⟨rfl, rfl,
      ((sample_coin_draws kickbackOps two_collapse_program (fun _ => false)
          heads_then_tails).2.1
        [] [] two_collapse_cycle [⟨random_result true 0⟩] [] ⟨random_result true 1⟩
        rfl rfl).1,
      ((sample_coin_draws kickbackOps two_collapse_program (fun _ => false)
          heads_then_tails).2.1
        [] [] two_collapse_cycle [⟨random_result true 0⟩] [] ⟨random_result true 1⟩
        rfl rfl).2.2.1⟩,
    ⟨by decide, by decide⟩,
    ⟨by decide,
      ((sample_coin_draws kickbackOps two_collapse_program (fun _ => false)
          heads_then_tails).2.2.2.2
        ⟨fun k => decide (k = 0 ∨ k = 7), 0⟩ (by decide)).1⟩⟩

/-! ## The replay without kickback -/

theorem reset_identity (n q : Nat) :
    ((PauliFrame.identity n).set_z_bit q false).set_x_bit q false = PauliFrame.identity n := by
  simp [PauliFrame.identity, PauliFrame.set_x_bit, PauliFrame.set_z_bit]

theorem identity_unitary_fold (P : PauliOps) (n : Nat) (ops : List Operation) :
    ∀ st : SampleState, st.pauli_frame = PauliFrame.identity n →
      (∀ op ∈ ops, P.unsigned_conjugate_by (PauliFrame.identity n) op.name op.targets
        = PauliFrame.identity n) →
      (ops.foldl (sample_unitary P) st).pauli_frame = PauliFrame.identity n := by
  induction ops with
  | nil => intro st h _; exact h
  | cons op ops ih =>
    intro st h hops
    simp only [List.foldl_cons]
    apply ih
    · simp only [sample_unitary, h]
      exact hops op (List.mem_cons_self op ops)
    · exact fun o ho => hops o (List.mem_cons_of_mem op ho)

theorem identity_collapse_fold (P : PauliOps) (n : Nat) (cs : List PauliFrameSimCollapse) :
    ∀ st : SampleState, st.pauli_frame = PauliFrame.identity n →
      (∀ i, i < cs.length → st.rng.coins (st.rng.drawn + i) = false) →
      (cs.foldl (sample_collapse P) st).pauli_frame = PauliFrame.identity n := by
  induction cs with
  | nil => intro st h _; exact h
  | cons e cs ih =>
    intro st h hcoins
    simp only [List.foldl_cons]
    have h0 := hcoins 0 (by simp)
    simp only [Nat.add_zero] at h0
    apply ih
    · rw [sample_collapse_eq]
      simp only [h0, Bool.false_eq_true, if_false]
      exact h
    · intro i hi
      rw [sample_collapse_eq]
      have := hcoins (i + 1) (by simp only [List.length_cons]; omega)
      simp only [Nat.add_assoc, Nat.add_comm 1 i]
      exact this

theorem identity_reset_fold (n : Nat) (qs : List Nat) :
    ∀ st : SampleState, st.pauli_frame = PauliFrame.identity n →
      (qs.foldl sample_reset st).pauli_frame = PauliFrame.identity n := by
  induction qs with
  | nil => intro st h; exact h
  | cons q qs ih =>
    intro st h
    simp only [List.foldl_cons]
    apply ih
    simp only [sample_reset, h]
    exact reset_identity n q

/-- One cycle played on the identity frame with tails only: the frame is the
identity at the end of each of its four loops. -/
theorem identity_cycle (P : PauliOps) (n : Nat) (c : PauliFrameSimCycle) (st : SampleState)
    (h : st.pauli_frame = PauliFrame.identity n)
    (hops : ∀ op ∈ c.step1_unitary,
      P.unsigned_conjugate_by (PauliFrame.identity n) op.name op.targets
        = PauliFrame.identity n)
    (hcoins : ∀ i, i < c.step2_collapse.length → st.rng.coins (st.rng.drawn + i) = false) :
    (c.step1_unitary.foldl (sample_unitary P) st).pauli_frame = PauliFrame.identity n
      ∧ (sample_before_measure P st c).pauli_frame = PauliFrame.identity n
      ∧ (sample_before_reset P st c).pauli_frame = PauliFrame.identity n
      ∧ (sample_cycle P st c).pauli_frame = PauliFrame.identity n := by
  have h1 := identity_unitary_fold P n c.step1_unitary st h hops
  have h2 : (sample_before_measure P st c).pauli_frame = PauliFrame.identity n := by
    unfold sample_before_measure
    apply identity_collapse_fold P n _ _ h1
    intro i hi
    rw [sample_unitary_fold_rng]
    exact hcoins i hi
  have h3 : (sample_before_reset P st c).pauli_frame = PauliFrame.identity n := by
    unfold sample_before_reset
    rw [(sample_measure_fold_rng _ _).2]
    exact h2
  refine ⟨h1, h2, h3, ?_⟩
  unfold sample_cycle
  exact identity_reset_fold n _ _ h3

theorem identity_cycles (P : PauliOps) (n : Nat) (cs : List PauliFrameSimCycle) :
    ∀ st : SampleState, st.pauli_frame = PauliFrame.identity n →
      (∀ c ∈ cs, ∀ op ∈ c.step1_unitary,
        P.unsigned_conjugate_by (PauliFrame.identity n) op.name op.targets
          = PauliFrame.identity n) →
      (∀ i, i < (all_collapse cs).length → st.rng.coins (st.rng.drawn + i) = false) →
      (cs.foldl (sample_cycle P) st).pauli_frame = PauliFrame.identity n
        ∧ spec_report_bits P cs st = (all_measure cs).map (fun m => m.invert) := by
  induction cs with
  | nil => intro st h _ _; exact ⟨h, rfl⟩
  | cons c cs ih =>
    intro st h hops hcoins
    have hlen : (all_collapse (c :: cs)).length
        = c.step2_collapse.length + (all_collapse cs).length := by
      simp [all_collapse]
    obtain ⟨_, k2, _, k4⟩ := identity_cycle P n c st h
      (hops c (List.mem_cons_self c cs)) (fun i hi => hcoins i (by rw [hlen]; omega))
    obtain ⟨i1, i2⟩ := ih (sample_cycle P st c) k4
      (fun c' hc' => hops c' (List.mem_cons_of_mem c hc'))
      (by
        intro i hi
        rw [sample_cycle_rng, sample_before_measure_rng]
        have := hcoins (c.step2_collapse.length + i) (by rw [hlen]; omega)
        simp only [Nat.add_assoc]
        exact this)
    refine ⟨by simpa only [List.foldl_cons] using i1, ?_⟩
    simp only [spec_report_bits, i2, k2, all_measure, List.flatMap_cons, List.map_append]
    congr 1
    apply List.map_congr_left
    intro m _
    simp [PauliFrame.get_x_bit, PauliFrame.identity]

/-- C18. When the coins that `sample` draws all come up tails and conjugating
the identity frame by any recorded gate gives the identity frame, then (for a
program with fewer reports than `size_t` values) the frame is the identity at
the start of every cycle, after each of its four loops, and at the end of the
run, and the output bit number `k` is the invert flag of report number `k`. -/
theorem sample_without_kickback (P : PauliOps) (ps : PauliFrameSimulation)
    (out : Nat → Bool) (rng : Rng)
    (hsize : (all_measure ps.cycles).length < SIZE_MOD)
    (htails : ∀ i, i < (all_collapse ps.cycles).length → rng.coins (rng.drawn + i) = false)
    (hgates : ∀ c ∈ ps.cycles, ∀ op ∈ c.step1_unitary,
      P.unsigned_conjugate_by (PauliFrame.identity ps.num_qubits) op.name op.targets
        = PauliFrame.identity ps.num_qubits) :
    (∀ (before after : List PauliFrameSimCycle) (c : PauliFrameSimCycle),
        ps.cycles = before ++ c :: after →
        (before.foldl (sample_cycle P) (sample_init ps out rng)).pauli_frame
            = PauliFrame.identity ps.num_qubits
          ∧ (c.step1_unitary.foldl (sample_unitary P)
              (before.foldl (sample_cycle P) (sample_init ps out rng))).pauli_frame
            = PauliFrame.identity ps.num_qubits
          ∧ (sample_before_measure P
              (before.foldl (sample_cycle P) (sample_init ps out rng)) c).pauli_frame
            = PauliFrame.identity ps.num_qubits
          ∧ (sample_before_reset P
              (before.foldl (sample_cycle P) (sample_init ps out rng)) c).pauli_frame
            = PauliFrame.identity ps.num_qubits
          ∧ (sample_cycle P
              (before.foldl (sample_cycle P) (sample_init ps out rng)) c).pauli_frame
            = PauliFrame.identity ps.num_qubits)
    ∧ (ps.sample P out rng).pauli_frame = PauliFrame.identity ps.num_qubits
    ∧ ∀ k, k < (all_measure ps.cycles).length →
        (ps.sample P out rng).out k
          = ((all_measure ps.cycles).map (fun m => m.invert)).getD k false := by
  obtain ⟨hframe, hbits⟩ := identity_cycles P ps.num_qubits ps.cycles (sample_init ps out rng)
    rfl hgates htails
  refine ⟨?_, hframe, ?_⟩
  · intro before after c hc
    have hlen : (all_collapse ps.cycles).length
        = (all_collapse before).length
          + (c.step2_collapse.length + (all_collapse after).length) := by
      rw [hc]
      simp [all_collapse]
    obtain ⟨hb, _⟩ := identity_cycles P ps.num_qubits before (sample_init ps out rng) rfl
      (fun c' hc' => hgates c' (by rw [hc]; exact List.mem_append_left _ hc'))
      (fun i hi => htails i (by rw [hlen]; omega))
    obtain ⟨k1, k2, k3, k4⟩ := identity_cycle P ps.num_qubits c
      (before.foldl (sample_cycle P) (sample_init ps out rng)) hb
      (hgates c (by rw [hc]; exact List.mem_append_right _ (List.mem_cons_self c after)))
      (by
        intro i hi
        rw [sample_cycles_rng]
        have := htails ((all_collapse before).length + i) (by rw [hlen]; omega)
        simp only [sample_init, Nat.add_assoc]
        exact this)
    exact ⟨hb, k1, k2, k3, k4⟩
  · intro k hk
    obtain ⟨_, h2, h3⟩ := sample_cycles_reports P ps.cycles (sample_init ps out rng)
      (by simpa [sample_init] using hsize)
    have hout : (ps.sample P out rng).out
        = spec_written out 0 (spec_report_bits P ps.cycles (sample_init ps out rng)) := h2
    rw [hout, hbits]
    simp only [spec_written, List.length_map, Nat.zero_le, true_and, Nat.zero_add,
      Nat.sub_zero]
    rw [if_pos hk]

/-- C18, on `example_gate_program` replayed with tails only. -/
theorem sample_without_kickback_witness :
    (all_measure example_gate_program.cycles).length < SIZE_MOD
    ∧ (∀ i, i < (all_collapse example_gate_program.cycles).length →
        all_tails.coins (all_tails.drawn + i) = false)
    ∧ (∀ c ∈ example_gate_program.cycles, ∀ op ∈ c.step1_unitary,
        kickbackOps.unsigned_conjugate_by (PauliFrame.identity example_gate_program.num_qubits)
            op.name op.targets
          = PauliFrame.identity example_gate_program.num_qubits)
    ∧ (example_gate_program.sample kickbackOps (fun _ => false) all_tails).pauli_frame
        = PauliFrame.identity example_gate_program.num_qubits
    ∧ ∀ k, k < (all_measure example_gate_program.cycles).length →
        (example_gate_program.sample kickbackOps (fun _ => false) all_tails).out k
          = ((all_measure example_gate_program.cycles).map (fun m => m.invert)).getD k false :=
  ⟨by decide, fun _ _ => rfl, fun _ _ _ _ => rfl,
    (sample_without_kickback kickbackOps example_gate_program (fun _ => false) all_tails
      (by decide) (fun _ _ => rfl) (fun _ _ _ _ => rfl)).2⟩

/-! ## Streams without phase-ordering conflict -/

theorem marks_from_mono {σ : Type} (done : List Operation) (op : Operation)
    (st st' : RecorderState σ) (h : marks_from done st) (hc : st'.cycles = st.cycles)
    (hp : st'.qubit_phases = st.qubit_phases) : marks_from (done ++ [op]) st' := by
  obtain ⟨h1, h2, h3⟩ := h
  refine ⟨by rw [hc, h1], ?_, ?_⟩
  · intro q hq
    rw [hp] at hq
    obtain ⟨e, he, hn, hmem⟩ := h2 q hq
    exact ⟨e, List.mem_append_left _ he, hn, hmem⟩
  · intro q hq
    rw [hp] at hq
    obtain ⟨e, he, hn, hmem⟩ := h3 q hq
    exact ⟨e, List.mem_append_left _ he, hn, hmem⟩

theorem split_on_conflict_none {σ : Type} (limit : Nat) (targets : List Nat)
    (st : RecorderState σ) (h : ∀ q ∈ targets, st.qubit_phases q ≤ limit) :
    split_on_conflict limit targets st = st := by
  rcases split_on_conflict_cases limit targets st with ⟨h1, _⟩ | ⟨_, q, hq, hlt⟩
  · exact h1
  · have := h q hq
    omega

theorem record_op_marks {σ : Type} (S : ChpSim σ) (done : List Operation) (op : Operation)
    (st st' : RecorderState σ) (h : marks_from done st)
    (hgate : op.is_recorded_gate = true →
      ∀ e ∈ done, (e.name = "M" ∨ e.name = "R") → ∀ q ∈ op.targets, q ∉ e.targets)
    (hmeasure : op.name = "M" → ∀ e ∈ done, e.name = "R" → ∀ q ∈ op.targets, q ∉ e.targets)
    (hstep : record_op S st op = some st') : marks_from (done ++ [op]) st' := by
  rcases operation_cases op with hp | ht | hm | hr | hg
  · rw [record_op_pauli S st op hp] at hstep
    cases hstep
    exact marks_from_mono done op st _ h rfl rfl
  · rw [record_op_tick S st op ht] at hstep
    cases hstep
    exact marks_from_mono done op st _ h rfl rfl
  · have hle : ∀ q ∈ op.targets, st.qubit_phases q ≤ PHASE_COLLAPSED := by
      intro q hq
      by_contra hlt
      obtain ⟨e, he, hn, hmem⟩ := h.2.2 q (by omega)
      exact hmeasure hm e he hn q hq hmem
    rw [record_op_measure S st op hm, split_on_conflict_none _ _ _ hle,
      measure_loop_zero_iff] at hstep
    obtain ⟨_, rfl⟩ := hstep
    obtain ⟨h1, h2, h3⟩ := h
    refine ⟨h1, ?_, ?_⟩
    · intro q hq
      simp only [measure_loop_result, List.drop_zero] at hq
      by_cases hin : q ∈ op.targets.take
          (S.inspected_collapse st.sim op.targets).1.length
      · exact ⟨op, by simp, Or.inl hm, List.mem_of_mem_take hin⟩
      · rw [if_neg hin] at hq
        obtain ⟨e, he, hn, hmem⟩ := h2 q hq
        exact ⟨e, List.mem_append_left _ he, hn, hmem⟩
    · intro q hq
      simp only [measure_loop_result, List.drop_zero] at hq
      by_cases hin : q ∈ op.targets.take
          (S.inspected_collapse st.sim op.targets).1.length
      · rw [if_pos hin] at hq
        exact absurd hq (lt_irrefl _)
      · rw [if_neg hin] at hq
        obtain ⟨e, he, hn, hmem⟩ := h3 q hq
        exact ⟨e, List.mem_append_left _ he, hn, hmem⟩
  · rw [record_op_reset S st op hr] at hstep
    rcases hloop : reset_loop op.targets (S.inspected_collapse st.sim op.targets).1 0
      { st with sim := (S.inspected_collapse st.sim op.targets).2 } with _ | st2
    · rw [hloop] at hstep
      cases hstep
    · rw [hloop] at hstep
      cases hstep
      obtain ⟨_, rfl⟩ := (reset_loop_zero_iff _ _ _ _).mp hloop
      obtain ⟨h1, h2, h3⟩ := h
      refine ⟨h1, ?_, ?_⟩
      · intro q hq
        simp only [reset_loop_result, List.drop_zero] at hq
        by_cases hin : q ∈ op.targets.take
            (S.inspected_collapse st.sim op.targets).1.length
        · exact ⟨op, by simp, Or.inr hr, List.mem_of_mem_take hin⟩
        · rw [if_neg hin] at hq
          obtain ⟨e, he, hn, hmem⟩ := h2 q hq
          exact ⟨e, List.mem_append_left _ he, hn, hmem⟩
      · intro q hq
        simp only [reset_loop_result, List.drop_zero] at hq
        by_cases hin : q ∈ op.targets.take
            (S.inspected_collapse st.sim op.targets).1.length
        · exact ⟨op, by simp, hr, List.mem_of_mem_take hin⟩
        · rw [if_neg hin] at hq
          obtain ⟨e, he, hn, hmem⟩ := h3 q hq
          exact ⟨e, List.mem_append_left _ he, hn, hmem⟩
  · have hle : ∀ q ∈ op.targets, st.qubit_phases q ≤ PHASE_UNITARY := by
      intro q hq
      by_contra hlt
      obtain ⟨e, he, hn, hmem⟩ := h.2.1 q (by omega)
      exact hgate hg e he hn q hq hmem
    rw [record_op_gate S st op hg, split_on_conflict_none _ _ _ hle] at hstep
    cases hstep
    exact marks_from_mono done op st _ h rfl rfl

theorem record_ops_marks {σ : Type} (S : ChpSim σ) (rest : List Operation) :
    ∀ (done : List Operation) (st st' : RecorderState σ), spec_no_reuse (done ++ rest) →
      marks_from done st → record_ops S rest st = some st' → st'.cycles = [] := by
  induction rest with
  | nil =>
    intro done st st' _ h hrun
    simp only [record_ops, Option.some.injEq] at hrun
    subst hrun
    exact h.1
  | cons op rest ih =>
    intro done st st' hfree h hrun
    simp only [record_ops] at hrun
    rcases hstep : record_op S st op with _ | st1
    · rw [hstep] at hrun
      cases hrun
    · rw [hstep] at hrun
      obtain ⟨hg, hm⟩ := hfree done rest op rfl
      have h1 := record_op_marks S done op st st1 h hg hm hstep
      exact ih (done ++ [op]) st1 st' (by simpa using hfree) h1 hrun

theorem record_op_reset_cycles {σ : Type} (S : ChpSim σ) (st st' : RecorderState σ)
    (op : Operation) (hr : op.name = "R") (hstep : record_op S st op = some st') :
    st'.cycles = st.cycles := by
  rw [record_op_reset S st op hr] at hstep
  rcases hloop : reset_loop op.targets (S.inspected_collapse st.sim op.targets).1 0
    { st with sim := (S.inspected_collapse st.sim op.targets).2 } with _ | st2
  · rw [hloop] at hstep
    cases hstep
  · rw [hloop] at hstep
    cases hstep
    obtain ⟨_, rfl⟩ := (reset_loop_zero_iff _ _ _ _).mp hloop
    rfl

theorem no_reuse_measure_reset : spec_no_reuse [⟨"M", [0]⟩, ⟨"R", [0]⟩] := by
  intro before after op hops
  rcases before with _ | ⟨b1, _ | ⟨b2, before⟩⟩
  · simp only [List.nil_append, List.cons.injEq] at hops
    obtain ⟨rfl, _⟩ := hops
    exact ⟨fun _ e he => absurd he (List.not_mem_nil e),
      fun _ e he => absurd he (List.not_mem_nil e)⟩
  · simp only [List.cons_append, List.nil_append, List.cons.injEq] at hops
    obtain ⟨_, rfl, _⟩ := hops
    exact ⟨fun hg => absurd hg (by decide), fun hm => absurd hm (by decide)⟩
  · simp at hops

/-- C16. For a stream without phase-ordering conflict (no recorded gate on a
qubit that an earlier `M` or `R` targeted, no `M` on a qubit that an earlier
`R` targeted) every program the recorder returns has at most one cycle, and it
returns one whenever the simulator gives at most one result per target. The
iteration on an `R` never pushes a cycle; and on `M 0; R 0`, for a simulator
that answers both collapses with one result, the program is one cycle with the
report of qubit 0 and `step4_reset = [0]`. -/
theorem single_cycle_without_conflict {σ : Type} (S : ChpSim σ) (ops : List Operation)
    (hfree : spec_no_reuse ops) :
    (collapse_within_targets S →
        ∃ prog, PauliFrameSimulation.recorded_from_tableau_sim S ops = some prog)
    ∧ (∀ prog, PauliFrameSimulation.recorded_from_tableau_sim S ops = some prog →
        prog.cycles.length ≤ 1)
    ∧ (∀ (st st' : RecorderState σ) (op : Operation), op.name = "R" →
        record_op S st op = some st' → st'.cycles = st.cycles)
    ∧ (∀ (ra rb : SparsePauliString) (s1 s2 : σ),
        S.inspected_collapse (S.init 1) [0] = ([ra], s1) →
        S.inspected_collapse s1 [0] = ([rb], s2) →
        PauliFrameSimulation.recorded_from_tableau_sim S [⟨"M", [0]⟩, ⟨"R", [0]⟩]
          = some { num_qubits := 1, num_measurements := 1,
                   cycles := [{ step1_unitary := [],
                                step2_collapse := collapse_events [ra, rb],
                                step3_measure := [⟨0, ra.sign⟩],
                                step4_reset := [0] }] }) := by
  refine ⟨fun hS => recorded_defined S hS ops, ?_,
    fun st st' op hr hstep => record_op_reset_cycles S st st' op hr hstep, ?_⟩
  · intro prog hprog
    obtain ⟨st, hrun, _, _, hcycles⟩ := recorded_eq_some S ops prog hprog
    have hinit : marks_from [] (recorder_init S (prescan ops).num_qubits) := by
      refine ⟨rfl, ?_, ?_⟩ <;> intro q hq <;>
        simp [recorder_init, PHASE_UNITARY, PHASE_COLLAPSED] at hq
    have hnone := record_ops_marks S ops [] _ st (by simpa using hfree) hinit hrun
    rw [hcycles]
    unfold flush
    by_cases hpc : st.partial_cycle.has_content = true
    · rw [if_pos hpc, hnone]
      simp
    · rw [if_neg hpc, hnone]
      simp
  · intro ra rb s1 s2 hfirst hsecond
    have hq : (prescan [⟨"M", [0]⟩, ⟨"R", [0]⟩]).num_qubits = 1 := by decide
    have hm : (prescan [⟨"M", [0]⟩, ⟨"R", [0]⟩]).num_measurements = 1 := by decide
    rw [recorded_unfold, hq, hm]
    cases ea : ra.indexed_words.isEmpty <;> cases eb : rb.indexed_words.isEmpty <;>
      simp [record_ops, record_op, split_on_conflict, recorder_init, hfirst, hsecond,
        reset_loop, measure_loop, push_collapse, ea, eb, flush, collapse_events,
        PauliFrameSimCycle.has_content, PHASE_UNITARY, PHASE_COLLAPSED, PHASE_RESET,
        set_phase, List.filter_cons]

/-- C16, on the stream `M 0; R 0`. -/
theorem single_cycle_without_conflict_witness :
    spec_no_reuse [⟨"M", [0]⟩, ⟨"R", [0]⟩]
    ∧ PauliFrameSimulation.recorded_from_tableau_sim (scriptedSim []) [⟨"M", [0]⟩, ⟨"R", [0]⟩]
      = some { num_qubits := 1, num_measurements := 1,
               cycles := [{ step3_measure := [⟨0, false⟩], step4_reset := [0] }] }
    ∧ ([({ step3_measure := [⟨0, false⟩], step4_reset := [0] } : PauliFrameSimCycle)]).length
        ≤ 1 :=
  ⟨no_reuse_measure_reset, rfl,
    (single_cycle_without_conflict (scriptedSim []) [⟨"M", [0]⟩, ⟨"R", [0]⟩]
      no_reuse_measure_reset).2.1 _ rfl⟩

/-! ## The indices the recorder uses -/

theorem le_foldl_max (targets : List Nat) (q : Nat) (h : q ∈ targets) :
    q ≤ targets.foldl max 0 := by
  induction targets with
  | nil => exact absurd h (List.not_mem_nil q)
  | cons a as ih =>
    simp only [List.foldl_cons]
    rw [foldl_max_start]
    rcases List.mem_cons.mp h with rfl | h
    · simp
    · have := ih h
      omega

theorem target_lt_num_qubits (ops : List Operation)
    (htargets : ∀ op ∈ ops, ∀ q ∈ op.targets, q < SIZE_MAX) (op : Operation) (hop : op ∈ ops)
    (q : Nat) (hq : q ∈ op.targets) : q < (prescan ops).num_qubits := by
  have hmem : q ∈ spec_all_targets ops := List.mem_flatMap.mpr ⟨op, hop, hq⟩
  have hne : spec_all_targets ops ≠ [] := List.ne_nil_of_mem hmem
  rw [prescan_num_qubits ops htargets, spec_num_qubits, if_neg hne]
  have := le_foldl_max _ q hmem
  omega

theorem within_empty (n : Nat) : ({} : PauliFrameSimCycle).within n := by
  refine ⟨?_, ?_, ?_⟩ <;> intro x hx <;> exact absurd hx (List.not_mem_nil x)

theorem split_on_conflict_within {σ : Type} (n limit : Nat) (targets : List Nat)
    (st : RecorderState σ) (h : ∀ c ∈ st.history, c.within n) :
    ∀ c ∈ (split_on_conflict limit targets st).history, c.within n := by
  rcases split_on_conflict_cases limit targets st with ⟨h1, _⟩ | ⟨h1, _⟩
  · rw [h1]
    exact h
  · rw [h1]
    intro c hc
    simp only [RecorderState.history, start_next_moment, List.mem_append,
      List.mem_singleton] at hc
    rcases hc with hc | rfl
    · exact h c (by simpa [RecorderState.history] using hc)
    · exact within_empty n

theorem record_op_within {σ : Type} (S : ChpSim σ) (n : Nat) (st st' : RecorderState σ)
    (op : Operation) (hop : ∀ q ∈ op.targets, q < n) (h : ∀ c ∈ st.history, c.within n)
    (hstep : record_op S st op = some st') : ∀ c ∈ st'.history, c.within n := by
  rcases operation_cases op with hp | ht | hm | hr | hg
  · rw [record_op_pauli S st op hp] at hstep
    cases hstep
    exact h
  · rw [record_op_tick S st op ht] at hstep
    cases hstep
    exact h
  · rw [record_op_measure S st op hm, measure_loop_zero_iff] at hstep
    obtain ⟨_, rfl⟩ := hstep
    have hs := split_on_conflict_within n PHASE_COLLAPSED op.targets st h
    intro c hc
    simp only [RecorderState.history, measure_loop_result, List.mem_append,
      List.mem_singleton, List.drop_zero] at hc
    rcases hc with hc | rfl
    · exact hs c (by simp [RecorderState.history, hc])
    · obtain ⟨w1, w2, w3⟩ := hs (split_on_conflict PHASE_COLLAPSED op.targets st).partial_cycle
        (by simp [RecorderState.history])
      refine ⟨w1, ?_, w3⟩
      intro m hmem
      rcases List.mem_append.mp hmem with hmem | hmem
      · exact w2 m hmem
      · have h1 : m.target_qubit ∈ (measure_reports op.targets
            (S.inspected_collapse (split_on_conflict PHASE_COLLAPSED op.targets st).sim
              op.targets).1).map (fun m => m.target_qubit) :=
          List.mem_map_of_mem _ hmem
        rw [measure_reports_qubits] at h1
        exact hop _ (List.mem_of_mem_take h1)
  · rw [record_op_reset S st op hr] at hstep
    rcases hloop : reset_loop op.targets (S.inspected_collapse st.sim op.targets).1 0
      { st with sim := (S.inspected_collapse st.sim op.targets).2 } with _ | st2
    · rw [hloop] at hstep
      cases hstep
    · rw [hloop] at hstep
      cases hstep
      obtain ⟨_, rfl⟩ := (reset_loop_zero_iff _ _ _ _).mp hloop
      intro c hc
      simp only [RecorderState.history, reset_loop_result, List.mem_append,
        List.mem_singleton, List.drop_zero] at hc
      rcases hc with hc | rfl
      · exact h c (by simp [RecorderState.history, hc])
      · obtain ⟨w1, w2, w3⟩ := h st.partial_cycle (by simp [RecorderState.history])
        refine ⟨w1, w2, ?_⟩
        intro q hmem
        rcases List.mem_append.mp hmem with hmem | hmem
        · exact w3 q hmem
        · exact hop _ (List.mem_of_mem_take hmem)
  · rw [record_op_gate S st op hg] at hstep
    cases hstep
    have hs := split_on_conflict_within n PHASE_UNITARY op.targets st h
    intro c hc
    simp only [RecorderState.history, List.mem_append, List.mem_singleton] at hc
    rcases hc with hc | rfl
    · exact hs c (by simp [RecorderState.history, hc])
    · obtain ⟨w1, w2, w3⟩ := hs (split_on_conflict PHASE_UNITARY op.targets st).partial_cycle
        (by simp [RecorderState.history])
      refine ⟨?_, w2, w3⟩
      intro o ho
      rcases List.mem_append.mp ho with ho | ho
      · exact w1 o ho
      · rw [List.mem_singleton.mp ho]
        exact hop

theorem record_ops_within {σ : Type} (S : ChpSim σ) (n : Nat) (ops : List Operation) :
    ∀ (st st' : RecorderState σ), (∀ op ∈ ops, ∀ q ∈ op.targets, q < n) →
      (∀ c ∈ st.history, c.within n) → record_ops S ops st = some st' →
      ∀ c ∈ st'.history, c.within n := by
  induction ops with
  | nil =>
    intro st st' _ h hrun
    simp only [record_ops, Option.some.injEq] at hrun
    subst hrun
    exact h
  | cons op ops ih =>
    intro st st' hops h hrun
    simp only [record_ops] at hrun
    rcases hstep : record_op S st op with _ | st1
    · rw [hstep] at hrun
      cases hrun
    · rw [hstep] at hrun
      exact ih st1 st' (fun o ho => hops o (List.mem_cons_of_mem op ho))
        (record_op_within S n st st1 op (hops op (List.mem_cons_self op ops)) h hstep) hrun

theorem flush_subset_history {σ : Type} (st : RecorderState σ) (c : PauliFrameSimCycle)
    (hc : c ∈ flush st) : c ∈ st.history := by
  unfold flush at hc
  by_cases hpc : st.partial_cycle.has_content = true
  · rw [if_pos hpc] at hc
    exact hc
  · rw [if_neg hpc] at hc
    exact List.mem_append_left _ hc

theorem unlog_split {σ : Type} (limit : Nat) (targets : List Nat)
    (st : RecorderState (σ × List Nat)) :
    (split_on_conflict limit targets st = st
        ∧ split_on_conflict limit targets (unlog st) = unlog st)
      ∨ (split_on_conflict limit targets st = start_next_moment st
        ∧ split_on_conflict limit targets (unlog st) = start_next_moment (unlog st)) := by
  rcases split_on_conflict_cases limit targets st with ⟨h1, h2⟩ | ⟨h1, q, hq, hlt⟩
  · exact Or.inl ⟨h1, split_on_conflict_none limit targets (unlog st) h2⟩
  · rcases split_on_conflict_cases limit targets (unlog st) with ⟨_, g2⟩ | ⟨g1, _⟩
    · have := g2 q hq
      simp only [unlog] at this
      omega
    · exact Or.inr ⟨h1, g1⟩

theorem measure_loop_unlog {σ : Type} (targets : List Nat) :
    ∀ (rs : List SparsePauliString) (k : Nat) (st : RecorderState (σ × List Nat)),
      (measure_loop targets rs k st).map unlog = measure_loop targets rs k (unlog st) := by
  intro rs
  induction rs with
  | nil => intro k st; rfl
  | cons r rs ih =>
    intro k st
    unfold measure_loop
    rcases targets[k]? with _ | q
    · rfl
    · exact ih _ _

theorem reset_loop_unlog {σ : Type} (targets : List Nat) :
    ∀ (rs : List SparsePauliString) (k : Nat) (st : RecorderState (σ × List Nat)),
      (reset_loop targets rs k st).map unlog = reset_loop targets rs k (unlog st) := by
  intro rs
  induction rs with
  | nil => intro k st; rfl
  | cons r rs ih =>
    intro k st
    unfold reset_loop
    rcases targets[k]? with _ | q
    · rfl
    · exact ih _ _

theorem record_op_unlog {σ : Type} (S : ChpSim σ) (st : RecorderState (σ × List Nat))
    (op : Operation) :
    (record_op (loggedSim S) st op).map unlog = record_op S (unlog st) op := by
  rcases operation_cases op with hp | ht | hm | hr | hg
  · rw [record_op_pauli _ st op hp, record_op_pauli S (unlog st) op hp]
    rfl
  · rw [record_op_tick _ st op ht, record_op_tick S (unlog st) op ht]
    rfl
  · rw [record_op_measure _ st op hm, record_op_measure S (unlog st) op hm, measure_loop_unlog]
    rcases unlog_split PHASE_COLLAPSED op.targets st with ⟨e1, e2⟩ | ⟨e1, e2⟩ <;>
      rw [e1, e2] <;> rfl
  · rw [record_op_reset _ st op hr, record_op_reset S (unlog st) op hr, Option.map_map]
    have h := reset_loop_unlog op.targets
      ((loggedSim S).inspected_collapse st.sim op.targets).1 0
      { st with sim := ((loggedSim S).inspected_collapse st.sim op.targets).2 }
    have h' : reset_loop op.targets (S.inspected_collapse (unlog st).sim op.targets).1 0
        { unlog st with sim := (S.inspected_collapse (unlog st).sim op.targets).2 }
        = (reset_loop op.targets ((loggedSim S).inspected_collapse st.sim op.targets).1 0
            { st with sim := ((loggedSim S).inspected_collapse st.sim op.targets).2 }).map
            unlog := h.symm
    rw [h', Option.map_map]
    rfl
  · rw [record_op_gate _ st op hg, record_op_gate S (unlog st) op hg]
    rcases unlog_split PHASE_UNITARY op.targets st with ⟨e1, e2⟩ | ⟨e1, e2⟩ <;>
      rw [e1, e2] <;> rfl

theorem record_ops_unlog {σ : Type} (S : ChpSim σ) (ops : List Operation) :
    ∀ st : RecorderState (σ × List Nat),
      (record_ops (loggedSim S) ops st).map unlog = record_ops S ops (unlog st) := by
  induction ops with
  | nil => intro st; rfl
  | cons op ops ih =>
    intro st
    simp only [record_ops]
    rw [← record_op_unlog]
    rcases record_op (loggedSim S) st op with _ | st1
    · rfl
    · exact ih st1

theorem recorded_logged {σ : Type} (S : ChpSim σ) (ops : List Operation) :
    PauliFrameSimulation.recorded_from_tableau_sim (loggedSim S) ops
      = PauliFrameSimulation.recorded_from_tableau_sim S ops := by
  rw [recorded_unfold, recorded_unfold]
  have h := record_ops_unlog S ops (recorder_init (loggedSim S) (prescan ops).num_qubits)
  have hinit : unlog (recorder_init (loggedSim S) (prescan ops).num_qubits)
      = recorder_init S (prescan ops).num_qubits := rfl
  rw [hinit] at h
  rw [← h, Option.map_map]
  rfl

theorem record_op_log {σ : Type} (S : ChpSim σ) (st st' : RecorderState (σ × List Nat))
    (op : Operation) (hstep : record_op (loggedSim S) st op = some st') :
    st'.sim.2 = st.sim.2 ++ passed_indices op := by
  rcases operation_cases op with hp | ht | hm | hr | hg
  · rw [record_op_pauli _ st op hp] at hstep
    cases hstep
    have h1 : op.name ≠ "TICK" := by rcases hp with h | h | h <;> rw [h] <;> decide
    have h3 : op.name ≠ "R" := by rcases hp with h | h | h <;> rw [h] <;> decide
    simp [passed_indices, h1, h3, loggedSim]
  · rw [record_op_tick _ st op ht] at hstep
    cases hstep
    simp [passed_indices, ht]
  · rw [record_op_measure _ st op hm, measure_loop_zero_iff] at hstep
    obtain ⟨_, rfl⟩ := hstep
    obtain ⟨_, _, _, e2⟩ := split_on_conflict_history PHASE_COLLAPSED op.targets st
    have h1 : op.name ≠ "TICK" := by rw [hm]; decide
    have h3 : op.name ≠ "R" := by rw [hm]; decide
    simp [passed_indices, h1, h3, measure_loop_result, e2, loggedSim]
  · rw [record_op_reset _ st op hr] at hstep
    rcases hloop : reset_loop op.targets
      ((loggedSim S).inspected_collapse st.sim op.targets).1 0
      { st with sim := ((loggedSim S).inspected_collapse st.sim op.targets).2 } with _ | st2
    · rw [hloop] at hstep
      cases hstep
    · rw [hloop] at hstep
      cases hstep
      obtain ⟨_, rfl⟩ := (reset_loop_zero_iff _ _ _ _).mp hloop
      have h1 : op.name ≠ "TICK" := by rw [hr]; decide
      simp [passed_indices, h1, hr, reset_loop_result, loggedSim]
  · rw [record_op_gate _ st op hg] at hstep
    cases hstep
    obtain ⟨_, h2, _, h4⟩ := (is_recorded_gate_iff op).mp hg
    obtain ⟨_, _, _, e2⟩ := split_on_conflict_history PHASE_UNITARY op.targets st
    simp [passed_indices, h2, h4, e2, loggedSim]

theorem record_ops_log {σ : Type} (S : ChpSim σ) (ops : List Operation) :
    ∀ st st' : RecorderState (σ × List Nat), record_ops (loggedSim S) ops st = some st' →
      st'.sim.2 = st.sim.2 ++ ops.flatMap passed_indices := by
  induction ops with
  | nil =>
    intro st st' hrun
    simp only [record_ops, Option.some.injEq] at hrun
    subst hrun
    simp
  | cons op ops ih =>
    intro st st' hrun
    simp only [record_ops] at hrun
    rcases hstep : record_op (loggedSim S) st op with _ | st1
    · rw [hstep] at hrun
      cases hrun
    · rw [hstep] at hrun
      rw [ih st1 st' hrun, record_op_log S st st1 op hstep]
      simp

theorem passed_indices_subset (op : Operation) (q : Nat) (h : q ∈ passed_indices op) :
    q ∈ op.targets := by
  unfold passed_indices at h
  by_cases ht : op.name = "TICK"
  · rw [if_pos ht] at h
    exact absurd h (List.not_mem_nil q)
  · rw [if_neg ht] at h
    by_cases hr : op.name = "R"
    · rw [if_pos hr] at h
      rcases List.mem_append.mp h with h | h <;> exact h
    · rw [if_neg hr] at h
      exact h

/-- C17. For a stream whose target indices are all below the largest `size_t`:
the simulator is constructed with the `num_qubits` of the returned program;
every qubit index the recorder passes to `func_op`, `inspected_collapse` and
`reset_many` (read off a simulator that logs them, which changes nothing in
the program) is below that `num_qubits`; and so is every index recorded in a
`step1_unitary` target list, a `step3_measure` report or a `step4_reset`
list. -/
theorem recorded_indices_in_range {σ : Type} (S : ChpSim σ) (ops : List Operation)
    (htargets : ∀ op ∈ ops, ∀ q ∈ op.targets, q < SIZE_MAX) :
    (collapse_within_targets S →
        ∃ prog, PauliFrameSimulation.recorded_from_tableau_sim S ops = some prog)
    ∧ PauliFrameSimulation.recorded_from_tableau_sim (loggedSim S) ops
        = PauliFrameSimulation.recorded_from_tableau_sim S ops
    ∧ (∀ st, record_ops (loggedSim S) ops
          (recorder_init (loggedSim S) (prescan ops).num_qubits) = some st →
        st.sim.2 = ops.flatMap passed_indices
          ∧ ∀ q ∈ st.sim.2, q < (prescan ops).num_qubits)
    ∧ (∀ prog, PauliFrameSimulation.recorded_from_tableau_sim S ops = some prog →
        prog.num_qubits = (prescan ops).num_qubits
          ∧ (∃ st, record_ops S ops (recorder_init S prog.num_qubits) = some st
              ∧ prog.cycles = flush st)
          ∧ ∀ c ∈ prog.cycles, c.within prog.num_qubits) := by
  have hlt : ∀ op ∈ ops, ∀ q ∈ op.targets, q < (prescan ops).num_qubits :=
    fun op hop q hq => target_lt_num_qubits ops htargets op hop q hq
  refine ⟨fun hS => recorded_defined S hS ops, recorded_logged S ops, ?_, ?_⟩
  · intro st hrun
    have hlog := record_ops_log S ops _ st hrun
    have hlog' : st.sim.2 = ops.flatMap passed_indices := by
      rw [hlog]
      simp [recorder_init, loggedSim]
    refine ⟨hlog', ?_⟩
    intro q hq
    rw [hlog'] at hq
    obtain ⟨op, hop, hmem⟩ := List.mem_flatMap.mp hq
    exact hlt op hop q (passed_indices_subset op q hmem)
  · intro prog hprog
    obtain ⟨st, hrun, hq, _, hcycles⟩ := recorded_eq_some S ops prog hprog
    refine ⟨hq, ⟨st, by rw [hq]; exact hrun, hcycles⟩, ?_⟩
    intro c hc
    rw [hcycles] at hc
    rw [hq]
    have hinit : ∀ c ∈ (recorder_init S (prescan ops).num_qubits).history,
        c.within (prescan ops).num_qubits := by
      intro c hc
      simp only [RecorderState.history, recorder_init, List.nil_append,
        List.mem_singleton] at hc
      rw [hc]
      exact within_empty _
    exact record_ops_within S _ ops _ st hlt hinit hrun c (flush_subset_history st c hc)

/-- C17, on the stream `H 4; M 1 0; R 2; M 0`, recorded with five qubits. -/
theorem recorded_indices_in_range_witness :
    (∀ op ∈ [(⟨"H", [4]⟩ : Operation), ⟨"M", [1, 0]⟩, ⟨"R", [2]⟩, ⟨"M", [0]⟩],
        ∀ q ∈ op.targets, q < SIZE_MAX)
    ∧ (record_ops (loggedSim (scriptedSim []))
          [⟨"H", [4]⟩, ⟨"M", [1, 0]⟩, ⟨"R", [2]⟩, ⟨"M", [0]⟩]
          (recorder_init (loggedSim (scriptedSim []))
            (prescan [⟨"H", [4]⟩, ⟨"M", [1, 0]⟩, ⟨"R", [2]⟩, ⟨"M", [0]⟩]).num_qubits)).isSome
        = true
    ∧ PauliFrameSimulation.recorded_from_tableau_sim (scriptedSim [])
        [⟨"H", [4]⟩, ⟨"M", [1, 0]⟩, ⟨"R", [2]⟩, ⟨"M", [0]⟩]
      = some { num_qubits := 5, num_measurements := 3,
               cycles := [{ step1_unitary := [⟨"H", [4]⟩],
                            step3_measure := [⟨1, false⟩, ⟨0, false⟩, ⟨0, false⟩],
                            step4_reset := [2] }] }
    ∧ ∀ c ∈ [({ step1_unitary := [⟨"H", [4]⟩],
                step3_measure := [⟨1, false⟩, ⟨0, false⟩, ⟨0, false⟩],
                step4_reset := [2] } : PauliFrameSimCycle)], c.within 5 :=
  ⟨by decide, rfl, rfl,
    ((recorded_indices_in_range (scriptedSim [])
        [⟨"H", [4]⟩, ⟨"M", [1, 0]⟩, ⟨"R", [2]⟩, ⟨"M", [0]⟩] (by decide)).2.2.2 _ rfl).2.2⟩

/-! ## The text form against its reference reading -/

theorem concat_all_cons (part : String) (parts : List String) :
    concat_all (part :: parts) = part ++ concat_all parts := rfl

theorem write_targets_eq (targets : List Nat) :
    ∀ out : String, write_targets out targets = out ++ spec_index_list targets := by
  induction targets with
  | nil =>
    intro out
    simp [write_targets, spec_index_list, concat_all]
  | cons q qs ih =>
    intro out
    have h := ih (out ++ " " ++ toString q)
    simp only [write_targets, List.foldl_cons] at h ⊢
    rw [h]
    simp only [spec_index_list, List.map_cons, concat_all_cons, String.append_assoc]

theorem write_unitary_eq (out : String) (op : Operation) :
    write_unitary out op = out ++ spec_unitary_line op := by
  simp only [write_unitary, write_targets_eq, spec_unitary_line, String.append_assoc]

theorem write_unitaries_eq (ops : List Operation) :
    ∀ out : String,
      ops.foldl write_unitary out = out ++ concat_all (ops.map spec_unitary_line) := by
  induction ops with
  | nil =>
    intro out
    simp [concat_all]
  | cons op ops ih =>
    intro out
    simp only [List.foldl_cons, ih, write_unitary_eq, List.map_cons, concat_all_cons,
      String.append_assoc]

theorem write_collapse_eq (str : SparsePauliString → String) (out : String)
    (e : PauliFrameSimCollapse) (h : 1 ≤ (str e.destabilizer).length) :
    write_collapse str out e = some (out ++ spec_collapse_line str e) := by
  simp only [write_collapse, substr_from_1, h, if_true, Option.map_some', spec_collapse_line,
    String.append_assoc]

theorem write_collapses_eq (str : SparsePauliString → String)
    (es : List PauliFrameSimCollapse) :
    ∀ out : String, (∀ e ∈ es, 1 ≤ (str e.destabilizer).length) →
      write_collapses str es out
        = some (out ++ concat_all (es.map (spec_collapse_line str))) := by
  induction es with
  | nil =>
    intro out _
    simp [write_collapses, concat_all]
  | cons e es ih =>
    intro out h
    simp only [write_collapses]
    rw [write_collapse_eq str out e (h e (List.mem_cons_self e es)), Option.some_bind,
      ih _ (fun e' he' => h e' (List.mem_cons_of_mem e he'))]
    simp only [List.map_cons, concat_all_cons, String.append_assoc]

theorem write_measure_eq (out : String) (m : PauliFrameSimMeasurement) :
    write_measure out m
      = out ++ (" " ++ ((if m.invert then "!" else "") ++ toString m.target_qubit)) := by
  unfold write_measure
  cases hb : m.invert
  · simp only [Bool.false_eq_true, if_false, String.append_assoc, String.empty_append]
  · simp only [if_true, String.append_assoc]

theorem write_measures_eq (ms : List PauliFrameSimMeasurement) :
    ∀ out : String,
      ms.foldl write_measure out
        = out ++ concat_all (ms.map (fun m =>
            " " ++ ((if m.invert then "!" else "") ++ toString m.target_qubit))) := by
  induction ms with
  | nil =>
    intro out
    simp [concat_all]
  | cons m ms ih =>
    intro out
    simp only [List.foldl_cons, ih, write_measure_eq, List.map_cons, concat_all_cons,
      String.append_assoc]

theorem write_cycle_eq (str : SparsePauliString → String) (out : String)
    (c : PauliFrameSimCycle) (h : ∀ e ∈ c.step2_collapse, 1 ≤ (str e.destabilizer).length) :
    write_cycle str out c = some (out ++ spec_cycle_text str c) := by
  unfold write_cycle
  rw [write_unitaries_eq, write_collapses_eq str _ _ h, Option.map_some']
  simp only [Option.some.injEq, spec_cycle_text, String.append_assoc]
  cases h3 : c.step3_measure with
  | nil =>
    cases h4 : c.step4_reset with
    | nil =>
      simp only [List.isEmpty_nil, Bool.not_true, Bool.false_eq_true, if_false, if_true,
        String.append_empty]
    | cons q qs =>
      simp only [List.isEmpty_nil, List.isEmpty_cons, Bool.not_true, Bool.not_false,
        Bool.false_eq_true, if_false, if_true, reduceCtorEq, write_targets_eq,
        spec_reset_line, String.append_assoc, String.empty_append]
  | cons m ms =>
    cases h4 : c.step4_reset with
    | nil =>
      simp only [List.isEmpty_nil, List.isEmpty_cons, Bool.not_true, Bool.not_false,
        Bool.false_eq_true, if_false, if_true, reduceCtorEq, write_measures_eq,
        spec_report_line, String.append_assoc, String.append_empty]
    | cons q qs =>
      simp only [List.isEmpty_cons, Bool.not_false, if_false, if_true, reduceCtorEq,
        write_measures_eq, spec_report_line, write_targets_eq, spec_reset_line,
        String.append_assoc]

theorem write_cycles_eq (str : SparsePauliString → String) (cs : List PauliFrameSimCycle) :
    ∀ out : String,
      (∀ c ∈ cs, ∀ e ∈ c.step2_collapse, 1 ≤ (str e.destabilizer).length) →
      write_cycles str cs out = some (out ++ concat_all (cs.map (spec_cycle_text str))) := by
  induction cs with
  | nil =>
    intro out _
    simp [write_cycles, concat_all]
  | cons c cs ih =>
    intro out h
    simp only [write_cycles]
    rw [write_cycle_eq str out c (h c (List.mem_cons_self c cs)), Option.some_bind,
      ih _ (fun c' hc' => h c' (List.mem_cons_of_mem c hc'))]
    simp only [List.map_cons, concat_all_cons, String.append_assoc]

/-- C13. For a program whose destabilizers all have a string with a first
character to remove, `operator<<` appends to the stream, and
`PauliFrameSimulation::str` returns, the concatenation over the cycles in
order of: a line `NAME t0 t1 ...` per unitary; a line `RANDOM_INTO_FRAME ` and
the destabilizer's string without its first character per collapse event; a
line `REPORT_FRAME` with ` q` or ` !q` per report exactly when there are
reports; a line `R` with ` q` per reset qubit exactly when there are resets.
The cycle with unitaries `H 0`, `CX 0 1`, reports `(0, false)`, `(1, true)` and
reset `1` prints `H 0`, `CX 0 1`, `REPORT_FRAME 0 !1`, `R 1`, one per line. -/
theorem printed_text (str : SparsePauliString → String) (ps : PauliFrameSimulation)
    (out : String)
    (hsign : ∀ c ∈ ps.cycles, ∀ e ∈ c.step2_collapse, 1 ≤ (str e.destabilizer).length) :
    print str out ps = some (out ++ spec_text str ps)
    ∧ ps.str str = some (spec_text str ps)
    ∧ PauliFrameSimulation.str str
        { num_qubits := 2, num_measurements := 2,
          cycles := [{ step1_unitary := [⟨"H", [0]⟩, ⟨"CX", [0, 1]⟩],
                       step3_measure := [⟨0, false⟩, ⟨1, true⟩], step4_reset := [1] }] }
      = some "H 0\nCX 0 1\nREPORT_FRAME 0 !1\nR 1\n" := by
  refine ⟨write_cycles_eq str ps.cycles out hsign, ?_, rfl⟩
  unfold PauliFrameSimulation.str print
  rw [write_cycles_eq str ps.cycles "" hsign, String.empty_append]
  rfl

/-- C13, on `example_gate_program` with a string function that writes the sign
and an `X` per indexed word. -/
theorem printed_text_witness :
    (∀ c ∈ example_gate_program.cycles, ∀ e ∈ c.step2_collapse,
        1 ≤ (example_str e.destabilizer).length)
    ∧ example_gate_program.str example_str
        = some "H 0\nRANDOM_INTO_FRAME X\nREPORT_FRAME !0\nR 0\nREPORT_FRAME 0\n"
    ∧ example_gate_program.str example_str
        = some (spec_text example_str example_gate_program) :=
  ⟨by decide, rfl,
    (printed_text example_str example_gate_program "" (by decide)).2.1⟩

/-! ## The replay over frame accessors that may fail -/

end Stim
